import Mathlib

/-!
# MemcacheQ queue storage engine (`bdb.c`)

A shallow embedding of the transactional queue engine of `bdb.c` and of the
part of Berkeley DB it drives, followed by theorems about enqueue, dequeue,
delete, enumeration, the startup reopen protocol and the environment set-up.

Conventions of the embedding

* A queue name, a file name and a record are byte strings, `List Char`.
  A `char *` argument is read as a C string: the bytes before the first NUL
  (`cstr`).  The catalog key is the whole `(key, nkey)` byte string.
* A `DB *` is a natural number (its address); `none` is `NULL`.  The table
  `Env.handles` lists the handles that are open and the file each one is
  bound to.  Addresses are handed out by a counter and are not reused.
* The durable state (`Store`: catalog table and queue files) is transactional:
  `txn->abort` puts back the store the transaction started from, and a failed
  `txn->commit` leaves the transaction aborted.  Open handles are process
  state: a handle closed inside an aborted transaction stays closed, and a
  handle opened inside it is left holding nothing and goes from the table.
* The behaviour of the substrate is that of Berkeley DB 5.3: an append of a
  record longer than `re_len` returns 0 and stores nothing, and `dbremove`
  of a file on which another handle is open does not return.  A call that
  does not return is `none`.
* Every call of the substrate can fail: `Faults` gives, per call site, the
  return code the substrate is made to produce; `0` lets the call run and
  return what the state determines.  An `open` inside a retry loop takes the
  list of the return codes of its successive attempts instead.
* A call through a handle that is not open (a freed `DB *` in C) is refused
  with `EINVAL` and changes nothing.
* `size_t` has 64 bits and `int` 32 bits; the numeric values of the Berkeley DB
  return codes are those of `db.h` 4.7, and only their being distinct and
  non-zero is used.
* `queue_rec_t`, `settings` and `bdb_settings` are declared in `memcacheq.h`;
  their fields are taken as the source uses them, `queue_size` as a signed
  integer without overflow (signed overflow is undefined in C).
-/

namespace MemcacheQ

/-! ## Bytes, names and return codes -/

/-- The NUL byte that ends a C string. -/
def NUL : Char := Char.ofNat 0

/-- Carriage return. -/
def CR : Char := Char.ofNat 13

/-- Line feed. -/
def LF : Char := Char.ofNat 10

/-- A queue name as passed in `(key, nkey)`. -/
abbrev Key := List Char

/-- An item buffer: the `ITEM_ntotal(it)` bytes starting at `it`. -/
abbrev item := List Char

/-- The C string held in a `char` array: the bytes before the first NUL. -/
def cstr (s : List Char) : List Char := s.takeWhile (fun c => c != NUL)

/-- Berkeley DB: key or record not found. -/
def DB_NOTFOUND : Int := -30989

/-- Berkeley DB: the transaction was chosen as deadlock victim. -/
def DB_LOCK_DEADLOCK : Int := -30995

/-- Berkeley DB: the user buffer of a `DB_DBT_USERMEM` DBT is too small. -/
def DB_BUFFER_SMALL : Int := -30999

/-- The errno value ENOENT. -/
def ENOENT : Int := 2

/-- The errno value EINVAL. -/
def EINVAL : Int := 22

/-! ## Tables -/

/-- Lookup of a key in a table kept as a list of pairs. -/
def tget {α β : Type} [DecidableEq α] (k : α) : List (α × β) → Option β
  | [] => none
  | (k1, v) :: t => if k1 = k then some v else tget k t

/-- Removal of a key from a table. -/
def tdel {α β : Type} [DecidableEq α] (k : α) (l : List (α × β)) : List (α × β) :=
  l.filter (fun e => e.1 != k)

/-- The default B-tree key order: bytewise lexicographic, a proper initial
segment first. -/
def key_lt : List Char → List Char → Bool
  | [], [] => false
  | [], _ :: _ => true
  | _ :: _, [] => false
  | a :: as, b :: bs =>
    if a.toNat < b.toNat then true
    else if b.toNat < a.toNat then false
    else key_lt as bs

/-- Insertion of a new key at its place in key order. -/
def tins {β : Type} (k : Key) (v : β) : List (Key × β) → List (Key × β)
  | [] => [(k, v)]
  | (k1, v1) :: t =>
    if key_lt k k1 then (k, v) :: (k1, v1) :: t else (k1, v1) :: tins k v t

/-- Store of a value under a key: overwrite in place when the key is present,
insert in key order otherwise. -/
def tput {β : Type} (k : Key) (v : β) (l : List (Key × β)) : List (Key × β) :=
  match tget k l with
  | some _ => l.map (fun e => if e.1 = k then (k, v) else e)
  | none => tins k v l

/-! ## State -/

/-- The catalog value `queue_rec_t`: the queue's `DB *` and its length. -/
structure queue_rec_t where
  queue_dbp : Option Nat
  queue_size : Int
deriving DecidableEq, Repr

/-- The durable, transactional state: the catalog `queue.list` in key order
and the queue files, each a FIFO of records, oldest first. -/
structure Store where
  qlist : List (Key × queue_rec_t)
  files : List (Key × List item)
deriving DecidableEq, Repr

/-- The environment of the running process: the store, the open `DB` handles
with the file each is bound to, and the next free handle address. -/
structure Env where
  store : Store
  handles : List (Nat × Key)
  next : Nat
deriving DecidableEq, Repr

/-- The fields of `settings` and `bdb_settings` the engine reads. -/
structure Settings where
  max_queue_size : Int
  re_len : Nat
  q_extentsize : Nat
deriving DecidableEq, Repr

/-- The call sites of the substrate (and of the item allocator). -/
inductive Step where
  | item_alloc
  | txn_begin
  | lookup_get
  | db_create
  | set_q_extentsize
  | set_re_len
  | set_pagesize
  | db_open
  | create_put
  | queue_put
  | queue_get
  | update_get
  | update_put
  | db_close
  | dbremove
  | qlist_del
  | cursor
  | cursor_get
  | cursor_put
  | txn_commit
deriving DecidableEq, Repr

/-- For each call site the return code forced on the call; `0` forces none. -/
abbrev Faults := Step → Int

/-- Every substrate call runs and returns what the state determines. -/
def no_faults : Faults := fun _ => 0

/-- A fresh environment: empty catalog, no queue file, no open handle. -/
def fresh : Env := { store := { qlist := [], files := [] }, handles := [], next := 1 }

/-- The effect of `txn->abort`, given the environment at `txn_begin`: the store
goes back to what it was, and of the handles open now those stay that were
open at `txn_begin` (a handle opened inside the transaction holds nothing
once the transaction is aborted). -/
def txn_abort (e0 : Env) (e : Env) : Env :=
  { store := e0.store,
    handles := e.handles.filter (fun p => decide (p ∈ e0.handles)),
    next := e.next }

/-! ## Berkeley DB calls -/

/-- The call `qlist_dbp->get`. -/
def DB_get (f : Int) (t : List (Key × queue_rec_t)) (k : Key) : Int × Option queue_rec_t :=
  if f ≠ 0 then (f, none)
  else match tget k t with
    | some v => (0, some v)
    | none => (DB_NOTFOUND, none)

/-- The call `qlist_dbp->put`. -/
def DB_put (f : Int) (t : List (Key × queue_rec_t)) (k : Key) (v : queue_rec_t) :
    Int × List (Key × queue_rec_t) :=
  if f ≠ 0 then (f, t) else (0, tput k v t)

/-- The call `qlist_dbp->del`. -/
def DB_del (f : Int) (t : List (Key × queue_rec_t)) (k : Key) :
    Int × List (Key × queue_rec_t) :=
  if f ≠ 0 then (f, t)
  else match tget k t with
    | some _ => (0, tdel k t)
    | none => (DB_NOTFOUND, t)

/-- The call `dbp->open(dbp, txn, file, NULL, DB_QUEUE, DB_CREATE, 0664)`: binds
the handle to the file, creating an empty file when there is none. -/
def DB_open (f : Int) (e : Env) (dbp : Nat) (file : Key) : Int × Env :=
  if f ≠ 0 then (f, e)
  else
    let files := match tget file e.store.files with
      | some _ => e.store.files
      | none => tput file [] e.store.files
    (0, { e with store := { e.store with files := files },
                 handles := (dbp, file) :: e.handles })

/-- The effect of `dbp->close`: the handle is gone whatever the call returns. -/
def DB_close (e : Env) (dbp : Nat) : Env := { e with handles := tdel dbp e.handles }

/-- The return code of `dbp->close`; a handle that is not open is refused. -/
def DB_close_ret (f : Int) (e : Env) (dbp : Nat) : Int :=
  if f ≠ 0 then f
  else match tget dbp e.handles with
    | some _ => 0
    | none => EINVAL

/-- The call `dbp->put(dbp, txn, &key, &data, DB_APPEND)` on a queue file: the
record goes to the tail; for a record longer than `re_len` the call returns 0
and stores nothing. -/
def DB_append (cfg : Settings) (f : Int) (e : Env) (dbp : Nat) (it : item) : Int × Env :=
  if f ≠ 0 then (f, e)
  else match tget dbp e.handles with
    | none => (EINVAL, e)
    | some file =>
      match tget file e.store.files with
      | none => (ENOENT, e)
      | some recs =>
        if cfg.re_len < it.length then (0, e)
        else (0, { e with store := { e.store with files := tput file (recs ++ [it]) e.store.files } })

/-- The call `dbp->get(dbp, txn, &key, &data, DB_CONSUME)`: returns and removes
the record at the head, `DB_NOTFOUND` when the queue is empty. -/
def DB_consume (f : Int) (e : Env) (dbp : Nat) : Int × Option item × Env :=
  if f ≠ 0 then (f, none, e)
  else match tget dbp e.handles with
    | none => (EINVAL, none, e)
    | some file =>
      match tget file e.store.files with
      | none => (DB_NOTFOUND, none, e)
      | some [] => (DB_NOTFOUND, none, e)
      | some (r :: rest) =>
        (0, some r, { e with store := { e.store with files := tput file rest e.store.files } })

/-- The call `envp->dbremove(envp, txn, file, NULL, 0)`: `none` (the call does
not return) while a handle is open on the file. -/
def DB_ENV_dbremove (f : Int) (e : Env) (file : Key) : Option (Int × Env) :=
  if f ≠ 0 then some (f, e)
  else match tget file e.store.files with
    | none => some (ENOENT, e)
    | some _ =>
      if e.handles.any (fun p => decide (p.2 = file)) then none
      else some (0, { e with store := { e.store with files := tdel file e.store.files } })

/-! ## The engine -/

/-- The function `get_queue_db_handle`: the record is zeroed, then filled by the
catalog get; not-found is turned into success with a NULL handle. -/
def get_queue_db_handle (f : Faults) (e : Env) (queue_name : Key) : Int × queue_rec_t :=
  let zeroed : queue_rec_t := { queue_dbp := none, queue_size := 0 }
  match DB_get (f Step.lookup_get) e.store.qlist queue_name with
  | (ret, data) =>
    if ret = 0 then (0, data.getD zeroed)
    else if ret = DB_NOTFOUND then (0, { zeroed with queue_dbp := none })
    else (ret, zeroed)

/-- The function `update_queue_length`: read, add `delta`, write back. -/
def update_queue_length (f : Faults) (e : Env) (queue_name : Key) (delta : Int) : Int × Env :=
  match DB_get (f Step.update_get) e.store.qlist queue_name with
  | (ret, data) =>
    if ret = 0 then
      let queue_rec := data.getD { queue_dbp := none, queue_size := 0 }
      let queue_rec := { queue_rec with queue_size := queue_rec.queue_size + delta }
      match DB_put (f Step.update_put) e.store.qlist queue_name queue_rec with
      | (ret, ql) => (ret, { e with store := { e.store with qlist := ql } })
    else (ret, e)

/-- The function `create_queue_db`: a new handle is configured and opened on
the file named by the C string `queue_name`, and the catalog gets the entry
`{handle, 0}` under the key; on any error the handle is closed. The third
component is the value left in `*queue_dbp`. -/
def create_queue_db (cfg : Settings) (f : Faults) (e : Env) (queue_name : Key) :
    Int × Env × Option Nat :=
  if f Step.db_create ≠ 0 then (f Step.db_create, e, none)
  else
    let temp_dbp := e.next
    let e1 : Env := { e with next := e.next + 1 }
    if cfg.q_extentsize ≠ 0 ∧ f Step.set_q_extentsize ≠ 0 then
      (f Step.set_q_extentsize, DB_close e1 temp_dbp, none)
    else if f Step.set_re_len ≠ 0 then (f Step.set_re_len, DB_close e1 temp_dbp, none)
    else if f Step.set_pagesize ≠ 0 then (f Step.set_pagesize, DB_close e1 temp_dbp, none)
    else
      match DB_open (f Step.db_open) e1 temp_dbp (cstr queue_name) with
      | (ret, e2) =>
        if ret ≠ 0 then (ret, DB_close e2 temp_dbp, none)
        else
          match DB_put (f Step.create_put) e2.store.qlist queue_name
              { queue_dbp := some temp_dbp, queue_size := 0 } with
          | (ret, ql) =>
            if ret ≠ 0 then (ret, DB_close e2 temp_dbp, none)
            else (0, { e2 with store := { e2.store with qlist := ql } }, some temp_dbp)

/-- The function `bdb_put`: returns `0` or `-1` and the environment after.
`created` is the outcome of the branch `if (queue_dbp == NULL)`: the return
code, the environment and the handle in `queue_dbp` (left NULL only when
`create_queue_db` fails). -/
def bdb_put (cfg : Settings) (f : Faults) (e : Env) (key : Key) (it : item) : Int × Env :=
  if f Step.txn_begin ≠ 0 then (-1, e)
  else
    match get_queue_db_handle f e key with
    | (ret, queue_rec) =>
      if ret ≠ 0 then (-1, txn_abort e e)
      else
        let created : Int × Env × Option Nat :=
          match queue_rec.queue_dbp with
          | none => create_queue_db cfg f e key
          | some dbp => (0, e, some dbp)
        match created with
        | (_, e1, none) => (-1, txn_abort e e1)
        | (ret, e1, some queue_dbp) =>
          if ret ≠ 0 then (-1, txn_abort e e1)
          else if cfg.max_queue_size ≠ 0 ∧ queue_rec.queue_size + 1 > cfg.max_queue_size then
            (-1, txn_abort e e1)
          else
            match DB_append cfg (f Step.queue_put) e1 queue_dbp it with
            | (ret, e2) =>
              if ret ≠ 0 then (-1, txn_abort e e2)
              else
                let updated : Int × Env :=
                  if cfg.max_queue_size ≠ 0 then update_queue_length f e2 key 1 else (0, e2)
                match updated with
                | (ret, e3) =>
                  if ret ≠ 0 then (-1, txn_abort e e3)
                  else if f Step.txn_commit ≠ 0 then (-1, txn_abort e e3)
                  else (0, e3)

/-- The function `bdb_get`: returns the consumed item, or `none` for `NULL`,
and the environment after. -/
def bdb_get (cfg : Settings) (f : Faults) (e : Env) (key : Key) : Option item × Env :=
  if f Step.item_alloc ≠ 0 then (none, e)
  else if f Step.txn_begin ≠ 0 then (none, e)
  else
    match get_queue_db_handle f e key with
    | (ret, queue_rec) =>
      match queue_rec.queue_dbp with
      | none => (none, txn_abort e e)
      | some queue_dbp =>
        if ret ≠ 0 then (none, txn_abort e e)
        else
          match DB_consume (f Step.queue_get) e queue_dbp with
          | (_, none, e1) => (none, txn_abort e e1)
          | (ret, some it, e1) =>
            if ret ≠ 0 then (none, txn_abort e e1)
            else
              let updated : Int × Env :=
                if cfg.max_queue_size ≠ 0 then update_queue_length f e1 key (-1) else (0, e1)
              match updated with
              | (ret, e2) =>
                if ret ≠ 0 then (none, txn_abort e e2)
                else if f Step.txn_commit ≠ 0 then (none, txn_abort e e2)
                else (some it, e2)

/-- The function `delete_queue_db`: `some` of its return value, `0` or `1`, and
the environment after; `none` when it does not return. The handle is closed
before the file is removed, outside the reach of the transaction. -/
def delete_queue_db (f : Faults) (e : Env) (queue_name : Key) : Option (Int × Env) :=
  if f Step.txn_begin ≠ 0 then some (1, e)
  else
    match get_queue_db_handle f e queue_name with
    | (ret, queue_rec) =>
      match queue_rec.queue_dbp with
      | none => some (1, txn_abort e e)
      | some queue_dbp =>
        if ret ≠ 0 then some (1, txn_abort e e)
        else
          let ret := DB_close_ret (f Step.db_close) e queue_dbp
          let e1 := DB_close e queue_dbp
          if ret ≠ 0 then some (1, txn_abort e e1)
          else
            match DB_ENV_dbremove (f Step.dbremove) e1 (cstr queue_name) with
            | none => none
            | some (ret, e2) =>
              if ret ≠ 0 then some (1, txn_abort e e2)
              else
                match DB_del (f Step.qlist_del) e2.store.qlist queue_name with
                | (ret, ql) =>
                  if ret ≠ 0 then some (1, txn_abort e e2)
                  else if f Step.txn_commit ≠ 0 then some (1, txn_abort e e2)
                  else some (0, { e2 with store := { e2.store with qlist := ql } })

/-! ## Enumeration -/

/-- Conversion of an integer to `size_t` (64 bits). -/
def to_size_t (x : Int) : Nat := (x % 2 ^ 64).toNat

/-- Conversion of an integer to `int` (32 bits, two's complement). -/
def to_int (x : Int) : Int := (x + 2 ^ 31) % 2 ^ 32 - 2 ^ 31

/-- An integer in decimal. -/
def dec (v : Int) : List Char :=
  if v < 0 then '-' :: Nat.toDigits 10 v.natAbs else Nat.toDigits 10 v.toNat

/-- The conversion `%d` of `sprintf` given the 64-bit `queue_size`: `%d` reads
an `int`, the low 32 bits of the value, and prints it in decimal. -/
def fmt_d (v : Int) : List Char := dec (to_int v)

/-- A cursor `get` into the `DB_DBT_USERMEM` buffer `queue_name`: the key's
bytes overwrite the front of the buffer, the rest of it stays. -/
def cursor_key (queue_name : List Char) (k : Key) : List Char :=
  k ++ queue_name.drop k.length

/-- The line `sprintf(buf, "STAT %s %d\r\n", queue_name, queue_size)` writes. -/
def stat_line (queue_name : List Char) (queue_size : Int) : List Char :=
  "STAT ".toList ++ cstr queue_name ++ [' '] ++ fmt_d queue_size ++ [CR, LF]

/-- The cursor loop of `print_queue_db_list` over the entries still to visit,
with the buffer `queue_name`, the counter `remains` and the text written so
far. Returns the `ret` the loop ends with and the text. -/
def print_loop (f : Faults) :
    List (Key × queue_rec_t) → List Char → Int → List Char → Int × List Char
  | [], _, _, out =>
    (if f Step.cursor_get ≠ 0 then f Step.cursor_get else DB_NOTFOUND, out)
  | (k, queue_rec) :: rest, queue_name, remains, out =>
    if f Step.cursor_get ≠ 0 then (f Step.cursor_get, out)
    else if 512 < k.length then (DB_BUFFER_SMALL, out)
    else
      let queue_name := (cursor_key queue_name k).set k.length NUL
      if to_size_t remains > (cstr queue_name).length + 8 then
        let line := stat_line queue_name queue_rec.queue_size
        print_loop f rest queue_name (remains - line.length) (out ++ line)
      else (0, out)

/-- The function `print_queue_db_list`: returns `0` or `-1` and the text
written into `buf`; each `sprintf` also writes a NUL after its text. The
writes are not bounded by `buf_size`: the text is what `sprintf` produces. -/
def print_queue_db_list (f : Faults) (e : Env) (buf_size : Nat) : Int × List Char :=
  let remains := to_int (to_size_t ((buf_size : Int) - 5))
  if f Step.txn_begin ≠ 0 then (-1, [])
  else if f Step.cursor ≠ 0 then (-1, [])
  else
    match print_loop f e.store.qlist (List.replicate 512 NUL) remains [] with
    | (ret, out) =>
      if ¬ (ret = DB_NOTFOUND ∨ ret = 0) then (-1, out)
      else if f Step.txn_commit ≠ 0 then (-1, out)
      else (0, out ++ "END".toList)

/-! ## Startup -/

/-- A process restart: the store survives, the handles of the old process
are gone (the catalog still carries their addresses). -/
def restart (e : Env) : Env := { store := e.store, handles := [], next := 1 }

/-- The retry loop of `bdb_qlist_db_open` on the catalog file, given the return
codes of the successive `open` attempts (success once the list is used up):
`true` when the catalog is open, `false` when the process exits. -/
def qlist_open : List Int → Bool
  | [] => true
  | r :: rs =>
    if r = 0 then true
    else if r = ENOENT ∨ r = DB_LOCK_DEADLOCK then qlist_open rs
    else false

/-- The function `open_exsited_queue_db`, given the return codes forced on the
successive `open` attempts (none once the list is used up): each pass creates
and configures a handle and opens the file named by the C string in
`queue_name`; `ENOENT` and deadlock lead to another pass. The third component
is the value left in `*queue_dbp`. -/
def open_exsited_queue_db (cfg : Settings) (f : Faults) :
    List Int → Env → List Char → Int × Env × Option Nat
  | rets, e, queue_name =>
    if f Step.db_create ≠ 0 then (f Step.db_create, e, none)
    else
      let temp_dbp := e.next
      let e1 : Env := { e with next := e.next + 1 }
      if cfg.q_extentsize ≠ 0 ∧ f Step.set_q_extentsize ≠ 0 then
        (f Step.set_q_extentsize, DB_close e1 temp_dbp, none)
      else if f Step.set_re_len ≠ 0 then (f Step.set_re_len, DB_close e1 temp_dbp, none)
      else if f Step.set_pagesize ≠ 0 then (f Step.set_pagesize, DB_close e1 temp_dbp, none)
      else
        match rets with
        | [] => (0, (DB_open 0 e1 temp_dbp (cstr queue_name)).2, some temp_dbp)
        | r :: rs =>
          match DB_open r e1 temp_dbp (cstr queue_name) with
          | (ret, e2) =>
            if ret = 0 then (0, e2, some temp_dbp)
            else if ret = ENOENT ∨ ret = DB_LOCK_DEADLOCK then
              open_exsited_queue_db cfg f rs (DB_close e2 temp_dbp) queue_name
            else (ret, DB_close e2 temp_dbp, none)

/-- The cursor loop of `bdb_qlist_db_open` over the entries still to visit:
the key is read into `queue_name`, the record just read is zeroed, the queue
file named by the C string in `queue_name` is opened, and the record is written
back at the cursor. Returns the `ret` the loop ends with. -/
def reopen_loop (cfg : Settings) (f : Faults) (rets : List Int) :
    List (Key × queue_rec_t) → List Char → Env → Int × Env
  | [], _, e => (if f Step.cursor_get ≠ 0 then f Step.cursor_get else DB_NOTFOUND, e)
  | (k, _) :: rest, queue_name, e =>
    if f Step.cursor_get ≠ 0 then (f Step.cursor_get, e)
    else if 512 < k.length then (DB_BUFFER_SMALL, e)
    else
      let queue_name := cursor_key queue_name k
      let queue_rec : queue_rec_t := { queue_dbp := none, queue_size := 0 }
      match open_exsited_queue_db cfg f rets e queue_name with
      | (ret, e1, dbp) =>
        if ret ≠ 0 then (ret, e1)
        else
          let queue_rec := { queue_rec with queue_dbp := dbp }
          match DB_put (f Step.cursor_put) e1.store.qlist k queue_rec with
          | (ret, ql) =>
            if ret ≠ 0 then (ret, e1)
            else reopen_loop cfg f rets rest queue_name
              { e1 with store := { e1.store with qlist := ql } }

/-- The function `bdb_qlist_db_open`, given the return codes of the catalog
`open` attempts and those forced on each queue's `open` attempts: `some` of the
environment after the commit, `none` when the process exits. -/
def bdb_qlist_db_open (cfg : Settings) (f : Faults) (qlist_rets queue_rets : List Int)
    (e : Env) : Option Env :=
  if f Step.txn_begin ≠ 0 then none
  else if qlist_open qlist_rets = false then none
  else if f Step.cursor ≠ 0 then none
  else
    match reopen_loop cfg f queue_rets e.store.qlist (List.replicate 512 NUL) e with
    | (ret, e1) =>
      if ret ≠ DB_NOTFOUND then none
      else if f Step.txn_commit ≠ 0 then none
      else some e1

/-! ## Environment set-up -/

/-- The configuration of a `DB_ENV` that `bdb_env_init` touches. -/
structure DB_ENV where
  verb_fileops_all : Bool
  verb_deadlock : Bool
  verb_recovery : Bool
  cachesize : Nat
  txn_nosync : Bool
  lk_max_lockers : Nat
  lk_max_locks : Nat
  lk_max_objects : Nat
  tx_max : Nat
  lg_bsize : Nat
  is_open : Bool
deriving DecidableEq, Repr

/-- The fields of `settings` and `bdb_settings` that `bdb_env_init` reads, and
whether the home directory exists (`access(env_home, F_OK) == 0`). -/
structure EnvSettings where
  verbose : Int
  cache_size : Nat
  txn_nosync : Int
  txn_lg_bsize : Nat
  home_exists : Bool
deriving DecidableEq, Repr

/-- The return codes of the calls of `bdb_env_init` whose result is checked. -/
structure EnvFaults where
  db_env_create : Int
  set_verbose_fileops_all : Int
  set_verbose_deadlock : Int
  set_verbose_recovery : Int
  mkdir : Int
  env_open : Int
deriving DecidableEq, Repr

/-- Every checked call of `bdb_env_init` succeeds. -/
def env_no_faults : EnvFaults := ⟨0, 0, 0, 0, 0, 0⟩

/-- The values `bdb_settings_init` stores, with verbosity off and the home
directory present. -/
def env_defaults : EnvSettings :=
  { verbose := 0, cache_size := 64 * 1024 * 1024, txn_nosync := 0,
    txn_lg_bsize := 32 * 1024, home_exists := true }

/-- The function `bdb_env_init`, given the environment `db_env_create` hands
out: the setters are applied in the order of the source; `none` when the
process exits. -/
def bdb_env_init (s : EnvSettings) (f : EnvFaults) (created : DB_ENV) : Option DB_ENV :=
  if f.db_env_create ≠ 0 then none
  else
    let envp := created
    let verbose : Option DB_ENV :=
      if s.verbose > 1 then
        if f.set_verbose_fileops_all ≠ 0 then none
        else if f.set_verbose_deadlock ≠ 0 then none
        else if f.set_verbose_recovery ≠ 0 then none
        else some { envp with verb_fileops_all := true, verb_deadlock := true,
                              verb_recovery := true }
      else some envp
    match verbose with
    | none => none
    | some envp =>
      let envp := { envp with cachesize := s.cache_size }
      let envp := if s.txn_nosync ≠ 0 then { envp with txn_nosync := true } else envp
      let envp := { envp with lk_max_lockers := 20000 }
      let envp := { envp with lk_max_locks := 20000 }
      let envp := { envp with lk_max_objects := 20000 }
      let envp := { envp with tx_max := 20000 }
      let envp := { envp with tx_max := 10000 }
      let envp := { envp with lg_bsize := s.txn_lg_bsize }
      if s.home_exists = false ∧ f.mkdir ≠ 0 then none
      else if f.env_open ≠ 0 then none
      else some { envp with is_open := true }

/-! ## Definitions for the statements -/

/-- Successive `bdb_put` calls on one queue: the return values and the
environment after the last call. -/
def put_all (cfg : Settings) (f : Faults) (key : Key) : Env → List item → List Int × Env
  | e, [] => ([], e)
  | e, it :: its =>
    let r := bdb_put cfg f e key it
    let rs := put_all cfg f key r.2 its
    (r.1 :: rs.1, rs.2)

/-- Successive `bdb_get` calls on one queue: the returned items and the
environment after the last call. -/
def get_n (cfg : Settings) (f : Faults) (key : Key) : Env → Nat → List (Option item) × Env
  | e, 0 => ([], e)
  | e, n + 1 =>
    let r := bdb_get cfg f e key
    let rs := get_n cfg f key r.2 n
    (r.1 :: rs.1, rs.2)

/-- The queue `name` is in the catalog with an open handle bound to its file,
and the file holds the records `recs`. -/
def Holds (e : Env) (name : Key) (recs : List item) : Prop :=
  ∃ h sz, tget name e.store.qlist = some ⟨some h, sz⟩ ∧
    tget h e.handles = some (cstr name) ∧ tget (cstr name) e.store.files = some recs

/-- Handles only go away: the address counter does not go back, and a handle
below the old counter that is open afterwards was open before, on the same
file. -/
def HandlesShrink (e e1 : Env) : Prop :=
  e.next ≤ e1.next ∧
    ∀ h, h < e.next → ∀ file, tget h e1.handles = some file → tget h e.handles = some file

/-- Handles below the old counter stay as they are: the address counter does
not go back, and every handle below the old counter is bound as before. -/
def HandlesKeep (e e1 : Env) : Prop :=
  e.next ≤ e1.next ∧ ∀ h, h < e.next → tget h e1.handles = tget h e.handles

/-- The files after `DB_open` on `file`: an empty file is added when there
was none. -/
def opened_files (file : Key) (files : List (Key × List item)) : List (Key × List item) :=
  match tget file files with
  | some _ => files
  | none => tput file [] files

/-- The part of `bdb_put` from the cap check on, given the environment at
`txn_begin`, the record read by the lookup, and the environment and handle after
the lookup or the creation. -/
def put_tail (cfg : Settings) (f : Faults) (e0 : Env) (key : Key) (it : item)
    (queue_rec : queue_rec_t) (e1 : Env) (queue_dbp : Nat) : Int × Env :=
  if cfg.max_queue_size ≠ 0 ∧ queue_rec.queue_size + 1 > cfg.max_queue_size then
    (-1, txn_abort e0 e1)
  else
    match DB_append cfg (f Step.queue_put) e1 queue_dbp it with
    | (ret, e2) =>
      if ret ≠ 0 then (-1, txn_abort e0 e2)
      else
        let updated : Int × Env :=
          if cfg.max_queue_size ≠ 0 then update_queue_length f e2 key 1 else (0, e2)
        match updated with
        | (ret, e3) =>
          if ret ≠ 0 then (-1, txn_abort e0 e3)
          else if f Step.txn_commit ≠ 0 then (-1, txn_abort e0 e3)
          else (0, e3)

/-- The environment after a successful `create_queue_db` for `key`. -/
def created_env (e : Env) (key : Key) : Env :=
  { store := { qlist := tput key ⟨some e.next, 0⟩ e.store.qlist,
               files := opened_files (cstr key) e.store.files },
    handles := (e.next, cstr key) :: e.handles,
    next := e.next + 1 }

/-- The name holds no NUL byte, so it is the C string it is passed as. -/
def NoNul (k : Key) : Prop := NUL ∉ k

instance instDecidableNoNul (k : Key) : Decidable (NoNul k) := by
  unfold NoNul; infer_instance

/-- A call of the engine's interface, with the faults in force during it. -/
inductive Call where
  | put (f : Faults) (key : Key) (it : item)
  | get (f : Faults) (key : Key)
  | del (f : Faults) (key : Key)

/-- The value a call returns: a return code, or the item of a `bdb_get`. -/
inductive Out where
  | code (r : Int)
  | got (it : Option item)
deriving DecidableEq, Repr

/-- The queue name a call is about. -/
def Call.key : Call → Key
  | Call.put _ k _ => k
  | Call.get _ k => k
  | Call.del _ k => k

/-- The faults in force during a call. -/
def Call.faults : Call → Faults
  | Call.put f _ _ => f
  | Call.get f _ => f
  | Call.del f _ => f

/-- One call: its return value and the environment after it; `none` when the
call does not return. -/
def exec (cfg : Settings) (e : Env) : Call → Option (Out × Env)
  | Call.put f k it => some (Out.code (bdb_put cfg f e k it).1, (bdb_put cfg f e k it).2)
  | Call.get f k => some (Out.got (bdb_get cfg f e k).1, (bdb_get cfg f e k).2)
  | Call.del f k =>
    match delete_queue_db f e k with
    | none => none
    | some r => some (Out.code r.1, r.2)

/-- The environment after a sequence of calls; a call that does not return
ends the sequence, in the environment it was made in. -/
def run (cfg : Settings) : Env → List Call → Env
  | e, [] => e
  | e, c :: cs =>
    match exec cfg e c with
    | none => e
    | some r => run cfg r.2 cs

/-- The return values of a sequence of calls, up to the first call that does
not return. -/
def trace (cfg : Settings) : Env → List Call → List Out
  | _, [] => []
  | e, c :: cs =>
    match exec cfg e c with
    | none => []
    | some r => r.1 :: trace cfg r.2 cs

/-- The number of live records in the queue file `name` (none when there is
no such file). -/
def live (e : Env) (name : Key) : Nat := ((tget name e.store.files).getD []).length

/-- A call with a NUL-free name during which the catalog lookup is not made
to report not-found for a key (not-found is what the substrate returns for
an absent key, in `DB_get`). -/
def CallOk (c : Call) : Prop :=
  NoNul c.key ∧ c.faults Step.lookup_get ≠ DB_NOTFOUND

/-- A `bdb_put` or `bdb_get` call during which no fault is forced, with a
NUL-free name and an item that fits a record. -/
def PlainCall (cfg : Settings) : Call → Prop
  | Call.put f k it => f = no_faults ∧ NoNul k ∧ it.length ≤ cfg.re_len
  | Call.get f k => f = no_faults ∧ NoNul k
  | Call.del _ _ => False

/-- The catalog and the files agree: every catalog entry has a NUL-free name,
a non-NULL handle below the address counter that, when open, is bound to the
file of the entry's name, and a file of that name whose record count is the
entry's length; and every file has a catalog entry. -/
def Inv (e : Env) : Prop :=
  (∀ p ∈ e.store.qlist, NoNul p.1 ∧
      (∃ h, p.2.queue_dbp = some h ∧ h < e.next ∧
        ∀ file, tget h e.handles = some file → file = p.1) ∧
      ∃ recs, tget p.1 e.store.files = some recs ∧ p.2.queue_size = recs.length) ∧
  (∀ g, tget g e.store.files ≠ none → tget g e.store.qlist ≠ none)

/-- Every handle stored in the catalog is open, and no stored length exceeds
the cap `c`. -/
def OpenCapped (c : Int) (e : Env) : Prop :=
  (∀ p ∈ e.store.qlist, ∀ h, p.2.queue_dbp = some h → ∃ file, tget h e.handles = some file) ∧
  (∀ p ∈ e.store.qlist, p.2.queue_size ≤ c)

instance instDecidableCallOk (c : Call) : Decidable (CallOk c) := by
  unfold CallOk; infer_instance

/-- The listing the specification describes: one line `STAT <name> <length>`
ended by CR LF per catalog entry, in catalog order, the length in decimal. -/
def spec_lines : List (Key × queue_rec_t) → List Char
  | [] => []
  | (k, r) :: t =>
    ("STAT ".toList ++ k ++ [' '] ++ dec r.queue_size ++ [CR, LF]) ++ spec_lines t

/-- The files after a `DB_APPEND` of `it` to `file`, which held `recs`: the
record is added when it fits, and nothing changes when it is longer than
`re_len`. -/
def appended_files (cfg : Settings) (it : item) (file : Key) (recs : List item)
    (files : List (Key × List item)) : List (Key × List item) :=
  if cfg.re_len < it.length then files else tput file (recs ++ [it]) files

/-- The item of a `bdb_put` call fits a record. -/
def CallFits (cfg : Settings) : Call → Prop
  | Call.put _ _ it => it.length ≤ cfg.re_len
  | Call.get _ _ => True
  | Call.del _ _ => True

/-- No catalog entry stores a NULL handle. Every writer of the catalog keeps
this: `create_queue_db` and `bdb_qlist_db_open` store the handle they have just
opened, and `update_queue_length` writes back the handle it read. -/
def NoNullHandles (e : Env) : Prop :=
  ∀ p ∈ e.store.qlist, p.2.queue_dbp ≠ none

instance instDecidableNoNullHandles (e : Env) : Decidable (NoNullHandles e) := by
  unfold NoNullHandles; infer_instance

/-- Every open handle is the handle stored in the catalog entry named as the
file it is bound to, so no two open handles are bound to one file. -/
def HandlesOwned (e : Env) : Prop :=
  ∀ p ∈ e.handles, ∃ sz, tget p.2 e.store.qlist = some ⟨some p.1, sz⟩

/-! ## Tables: lookup after update -/

section tables
variable {α β : Type} [DecidableEq α]

theorem tget_cons (k : α) (p : α × β) (t : List (α × β)) :
    tget k (p :: t) = if p.1 = k then some p.2 else tget k t := by
  cases p; rfl

theorem mem_of_tget {k : α} {v : β} {l : List (α × β)} (h : tget k l = some v) : (k, v) ∈ l := by
  induction l with
  | nil => simp [tget] at h
  | cons p t ih =>
    rw [tget_cons] at h
    by_cases hk : p.1 = k
    · simp [hk] at h
      subst hk; subst h
      simp
    · simp [hk] at h
      exact List.mem_cons_of_mem _ (ih h)

theorem tget_eq_none_iff {k : α} {l : List (α × β)} : tget k l = none ↔ ∀ e ∈ l, e.1 ≠ k := by
  induction l with
  | nil => simp [tget]
  | cons p t ih =>
    rw [tget_cons]
    by_cases hk : p.1 = k
    · simp [hk]
    · simp [hk, ih]

theorem tget_tdel_same (k : α) (l : List (α × β)) : tget k (tdel k l) = none := by
  rw [tget_eq_none_iff]
  intro e he
  simp [tdel] at he
  exact he.2

theorem tget_tdel_ne {k k1 : α} (h : k1 ≠ k) (l : List (α × β)) :
    tget k1 (tdel k l) = tget k1 l := by
  induction l with
  | nil => rfl
  | cons p t ih =>
    by_cases hp : p.1 = k
    · have : tdel k (p :: t) = tdel k t := by simp [tdel, hp]
      rw [this, ih, tget_cons]
      have : p.1 ≠ k1 := by rw [hp]; exact fun h2 => h h2.symm
      simp [this]
    · have : tdel k (p :: t) = p :: tdel k t := by simp [tdel, hp]
      rw [this, tget_cons, tget_cons, ih]

theorem mem_tdel {k : α} {e : α × β} {l : List (α × β)} : e ∈ tdel k l ↔ e ∈ l ∧ e.1 ≠ k := by
  simp [tdel]

end tables

section keyed
variable {β : Type}

theorem mem_tins {k : Key} {v : β} {e : Key × β} {l : List (Key × β)} :
    e ∈ tins k v l ↔ e = (k, v) ∨ e ∈ l := by
  induction l with
  | nil => simp [tins]
  | cons p t ih =>
    obtain ⟨k1, v1⟩ := p
    by_cases hlt : key_lt k k1 = true
    · simp [tins, hlt]
    · simp [tins, hlt, ih]
      tauto

theorem tget_tins_same {k : Key} {v : β} {l : List (Key × β)} (h : tget k l = none) :
    tget k (tins k v l) = some v := by
  induction l with
  | nil => simp [tins, tget]
  | cons p t ih =>
    obtain ⟨k1, v1⟩ := p
    rw [tget_cons] at h
    by_cases hk : k1 = k
    · simp [hk] at h
    · simp [hk] at h
      by_cases hlt : key_lt k k1 = true
      · simp [tins, hlt, tget]
      · simp [tins, hlt, tget, hk, ih h]

theorem tget_tins_ne {k k1 : Key} {v : β} (hne : k1 ≠ k) (l : List (Key × β)) :
    tget k1 (tins k v l) = tget k1 l := by
  have hne2 : ¬ k = k1 := fun h => hne h.symm
  induction l with
  | nil => simp [tins, tget, hne2]
  | cons p t ih =>
    obtain ⟨k2, v2⟩ := p
    by_cases hlt : key_lt k k2 = true
    · simp [tins, hlt, tget, hne2]
    · simp [tins, hlt, tget, ih]

theorem tget_map_same {k : Key} {v w : β} {l : List (Key × β)} (h : tget k l = some w) :
    tget k (l.map (fun e => if e.1 = k then (k, v) else e)) = some v := by
  induction l with
  | nil => simp [tget] at h
  | cons p t ih =>
    rw [tget_cons] at h
    rw [List.map_cons, tget_cons]
    by_cases hk : p.1 = k
    · rw [if_pos hk, if_pos rfl]
    · rw [if_neg hk] at h
      rw [if_neg hk, if_neg hk]
      exact ih h

theorem tget_map_ne {k k1 : Key} {v : β} (hne : k1 ≠ k) (l : List (Key × β)) :
    tget k1 (l.map (fun e => if e.1 = k then (k, v) else e)) = tget k1 l := by
  have hne2 : ¬ k = k1 := fun h => hne h.symm
  induction l with
  | nil => rfl
  | cons p t ih =>
    rw [List.map_cons, tget_cons, tget_cons, ih]
    by_cases hk : p.1 = k
    · rw [if_pos hk, if_neg hne2, if_neg (by rw [hk]; exact hne2)]
    · rw [if_neg hk]

theorem tget_tput_same (k : Key) (v : β) (l : List (Key × β)) :
    tget k (tput k v l) = some v := by
  unfold tput
  cases h : tget k l with
  | none => simpa using tget_tins_same h
  | some w => simpa using tget_map_same h

theorem tget_tput_ne {k k1 : Key} (hne : k1 ≠ k) (v : β) (l : List (Key × β)) :
    tget k1 (tput k v l) = tget k1 l := by
  unfold tput
  cases h : tget k l with
  | none => simpa using tget_tins_ne hne l
  | some w => simpa using tget_map_ne hne l

theorem tget_tput (k k1 : Key) (v : β) (l : List (Key × β)) :
    tget k1 (tput k v l) = if k1 = k then some v else tget k1 l := by
  by_cases h : k1 = k
  · subst h; simp [tget_tput_same]
  · simp [h, tget_tput_ne h]

theorem mem_tput {k : Key} {v : β} {e : Key × β} {l : List (Key × β)} :
    e ∈ tput k v l ↔ e = (k, v) ∨ (e ∈ l ∧ e.1 ≠ k) := by
  unfold tput
  cases h : tget k l with
  | none =>
    rw [tget_eq_none_iff] at h
    simp only [mem_tins]
    constructor
    · rintro (h1 | h1)
      · exact Or.inl h1
      · exact Or.inr ⟨h1, h e h1⟩
    · rintro (h1 | h1)
      · exact Or.inl h1
      · exact Or.inr h1.1
  | some w =>
    have hm := mem_of_tget h
    simp only [List.mem_map]
    constructor
    · rintro ⟨a, ha, rfl⟩
      by_cases hk : a.1 = k
      · simp [hk]
      · simp [hk, ha]
    · rintro (h1 | ⟨h1, h2⟩)
      · exact ⟨(k, w), hm, by simp [h1]⟩
      · exact ⟨e, h1, by simp [h2]⟩

end keyed

/-! ## Transactions, lookup and length update -/

theorem txn_abort_handles_sub (e0 e : Env) (h : ∀ p ∈ e.handles, p ∈ e0.handles) :
    (txn_abort e0 e).handles = e.handles := by
  simp only [txn_abort]
  exact List.filter_eq_self.2 (fun a ha => by simpa using h a ha)

@[simp] theorem txn_abort_self (e : Env) : txn_abort e e = e := by
  have h := txn_abort_handles_sub e e (fun _ hp => hp)
  cases e
  simp only [txn_abort] at h ⊢
  rw [h]

@[simp] theorem txn_abort_store (e0 : Env) (e : Env) : (txn_abort e0 e).store = e0.store := rfl

@[simp] theorem txn_abort_next (e0 : Env) (e : Env) : (txn_abort e0 e).next = e.next := rfl

theorem txn_abort_with_store2 (e0 : Env) (s : Store) (e : Env) :
    txn_abort e0 { e with store := s } = txn_abort e0 e := rfl

@[simp] theorem txn_abort_with_store (s : Store) (e : Env) :
    txn_abort e { e with store := s } = e := by
  rw [txn_abort_with_store2, txn_abort_self]

theorem gqh_found {f : Faults} {e : Env} {k : Key} {r : queue_rec_t}
    (hf : f Step.lookup_get = 0) (h : tget k e.store.qlist = some r) :
    get_queue_db_handle f e k = (0, r) := by
  simp [get_queue_db_handle, DB_get, hf, h]

theorem gqh_absent {f : Faults} {e : Env} {k : Key}
    (hf : f Step.lookup_get = 0) (h : tget k e.store.qlist = none) :
    get_queue_db_handle f e k = (0, ⟨none, 0⟩) := by
  simp [get_queue_db_handle, DB_get, hf, h, DB_NOTFOUND]

theorem gqh_notfound {f : Faults} {e : Env} {k : Key}
    (hf : f Step.lookup_get = DB_NOTFOUND) :
    get_queue_db_handle f e k = (0, ⟨none, 0⟩) := by
  simp [get_queue_db_handle, DB_get, hf, DB_NOTFOUND]

theorem gqh_error {f : Faults} {e : Env} {k : Key}
    (hf : f Step.lookup_get ≠ 0) (hn : f Step.lookup_get ≠ DB_NOTFOUND) :
    get_queue_db_handle f e k = (f Step.lookup_get, ⟨none, 0⟩) := by
  simp [get_queue_db_handle, DB_get, hf, hn]

theorem uql_get_fault {f : Faults} {e : Env} {k : Key} {d : Int}
    (hf : f Step.update_get ≠ 0) :
    update_queue_length f e k d = (f Step.update_get, e) := by
  simp [update_queue_length, DB_get, hf]

theorem uql_absent {f : Faults} {e : Env} {k : Key} {d : Int}
    (hf : f Step.update_get = 0) (h : tget k e.store.qlist = none) :
    update_queue_length f e k d = (DB_NOTFOUND, e) := by
  simp [update_queue_length, DB_get, hf, h, DB_NOTFOUND]

theorem uql_put_fault {f : Faults} {e : Env} {k : Key} {d : Int} {r : queue_rec_t}
    (hf : f Step.update_get = 0) (h : tget k e.store.qlist = some r)
    (hp : f Step.update_put ≠ 0) :
    update_queue_length f e k d = (f Step.update_put, e) := by
  simp [update_queue_length, DB_get, hf, h, DB_put, hp]

theorem uql_ok {f : Faults} {e : Env} {k : Key} {d : Int} {r : queue_rec_t}
    (hf : f Step.update_get = 0) (h : tget k e.store.qlist = some r)
    (hp : f Step.update_put = 0) :
    update_queue_length f e k d =
      (0, { e with store := { e.store with
              qlist := tput k ⟨r.queue_dbp, r.queue_size + d⟩ e.store.qlist } }) := by
  simp [update_queue_length, DB_get, hf, h, DB_put, hp]

theorem bdb_get_cases (cfg : Settings) (f : Faults) (e : Env) (key : Key) :
    bdb_get cfg f e key = (none, e) ∨
    ∃ h sz file r rest,
      f Step.item_alloc = 0 ∧ f Step.txn_begin = 0 ∧ f Step.lookup_get = 0 ∧
      f Step.queue_get = 0 ∧ f Step.txn_commit = 0 ∧
      tget key e.store.qlist = some ⟨some h, sz⟩ ∧ tget h e.handles = some file ∧
      tget file e.store.files = some (r :: rest) ∧
      ((cfg.max_queue_size = 0 ∧
          bdb_get cfg f e key =
            (some r, { e with store := { e.store with files := tput file rest e.store.files } })) ∨
       (cfg.max_queue_size ≠ 0 ∧ f Step.update_get = 0 ∧ f Step.update_put = 0 ∧
          bdb_get cfg f e key =
            (some r, { e with store := { qlist := tput key ⟨some h, sz - 1⟩ e.store.qlist,
                                         files := tput file rest e.store.files } }))) := by
  by_cases a1 : f Step.item_alloc = 0
  swap
  · left; simp [bdb_get, a1]
  by_cases a2 : f Step.txn_begin = 0
  swap
  · left; simp [bdb_get, a1, a2]
  by_cases a3 : f Step.lookup_get = 0
  swap
  · left
    by_cases a3n : f Step.lookup_get = DB_NOTFOUND
    · simp [bdb_get, a1, a2, gqh_notfound a3n]
    · simp [bdb_get, a1, a2, gqh_error a3 a3n]
  cases hq : tget key e.store.qlist with
  | none => left; simp [bdb_get, a1, a2, gqh_absent a3 hq]
  | some qr =>
    obtain ⟨dbp, sz⟩ := qr
    cases dbp with
    | none => left; simp [bdb_get, a1, a2, gqh_found a3 hq]
    | some h =>
      by_cases a4 : f Step.queue_get = 0
      swap
      · left; simp [bdb_get, a1, a2, gqh_found a3 hq, DB_consume, a4]
      cases hh : tget h e.handles with
      | none => left; simp [bdb_get, a1, a2, gqh_found a3 hq, DB_consume, a4, hh]
      | some file =>
        cases hf : tget file e.store.files with
        | none =>
          left; simp [bdb_get, a1, a2, gqh_found a3 hq, DB_consume, a4, hh, hf]
        | some recs =>
          cases recs with
          | nil =>
            left
            simp [bdb_get, a1, a2, gqh_found a3 hq, DB_consume, a4, hh, hf]
          | cons r rest =>
            by_cases c : cfg.max_queue_size = 0
            · by_cases a5 : f Step.txn_commit = 0
              · right
                refine ⟨h, sz, file, r, rest, a1, a2, a3, a4, a5, rfl, hh, hf, Or.inl ⟨c, ?_⟩⟩
                simp [bdb_get, a1, a2, gqh_found a3 hq, DB_consume, a4, hh, hf,
                  c, a5]
              · left
                simp [bdb_get, a1, a2, gqh_found a3 hq, DB_consume, a4, hh, hf,
                  c, a5, txn_abort_with_store]
            · have hq1 : tget key ({ e with store := { e.store with
                  files := tput file rest e.store.files } } : Env).store.qlist =
                  some ⟨some h, sz⟩ := hq
              by_cases a6 : f Step.update_get = 0
              swap
              · left
                simp [bdb_get, a1, a2, gqh_found a3 hq, DB_consume, a4, hh, hf,
                  c, uql_get_fault a6, a6, txn_abort_with_store]
              by_cases a7 : f Step.update_put = 0
              swap
              · left
                simp [bdb_get, a1, a2, gqh_found a3 hq, DB_consume, a4, hh, hf,
                  c, uql_put_fault a6 hq1 a7, a7, txn_abort_with_store]
              by_cases a5 : f Step.txn_commit = 0
              · right
                refine ⟨h, sz, file, r, rest, a1, a2, a3, a4, a5, rfl, hh, hf,
                  Or.inr ⟨c, a6, a7, ?_⟩⟩
                simp [bdb_get, a1, a2, gqh_found a3 hq, DB_consume, a4, hh, hf,
                  c, uql_ok a6 hq1 a7, a5]
                rfl
              · left
                simp [bdb_get, a1, a2, gqh_found a3 hq, DB_consume, a4, hh, hf,
                  c, uql_ok a6 hq1 a7, a5, txn_abort_with_store2]

/-! ## Queue creation and enqueue -/

theorem handlesShrink_refl (e : Env) : HandlesShrink e e :=
  ⟨Nat.le_refl _, fun _ _ _ h => h⟩

theorem handlesKeep_refl (e : Env) : HandlesKeep e e :=
  ⟨Nat.le_refl _, fun _ _ => rfl⟩

theorem handlesKeep_shrink {e e1 : Env} (h : HandlesKeep e e1) : HandlesShrink e e1 :=
  ⟨h.1, fun x hx file hf => by rw [← h.2 x hx]; exact hf⟩

theorem handlesKeep_close_new (e : Env) (s : Store) (hs : List (Nat × Key))
    (hh : ∀ h, h < e.next → tget h hs = tget h e.handles) :
    HandlesKeep e (DB_close { store := s, handles := hs, next := e.next + 1 } e.next) := by
  refine ⟨Nat.le_succ _, ?_⟩
  intro h hlt
  have hne : h ≠ e.next := Nat.ne_of_lt hlt
  simp only [DB_close]
  rw [tget_tdel_ne hne]
  exact hh h hlt

theorem create_queue_db_cases (cfg : Settings) (f : Faults) (e : Env) (key : Key) :
    ((create_queue_db cfg f e key).1 ≠ 0 ∧ (create_queue_db cfg f e key).2.2 = none ∧
      HandlesKeep e (create_queue_db cfg f e key).2.1) ∨
    (f Step.db_open = 0 ∧ f Step.create_put = 0 ∧
      create_queue_db cfg f e key =
        (0, { store := { qlist := tput key ⟨some e.next, 0⟩ e.store.qlist,
                         files := opened_files (cstr key) e.store.files },
              handles := (e.next, cstr key) :: e.handles,
              next := e.next + 1 }, some e.next)) := by
  have hcons : ∀ h, h < e.next →
      tget h ((e.next, cstr key) :: e.handles) = tget h e.handles := by
    intro h hlt
    have hne : ¬ e.next = h := fun h2 => Nat.ne_of_lt hlt h2.symm
    simp [tget, hne]
  have hsame : ∀ h, h < e.next → tget h e.handles = tget h e.handles := fun _ _ => rfl
  by_cases b1 : f Step.db_create ≠ 0
  · left
    unfold create_queue_db
    rw [if_pos b1]
    exact ⟨b1, rfl, handlesKeep_refl e⟩
  by_cases b2 : cfg.q_extentsize ≠ 0 ∧ f Step.set_q_extentsize ≠ 0
  · left
    unfold create_queue_db
    rw [if_neg b1]
    dsimp only
    rw [if_pos b2]
    exact ⟨b2.2, rfl, handlesKeep_close_new e e.store e.handles hsame⟩
  by_cases b3 : f Step.set_re_len ≠ 0
  · left
    unfold create_queue_db
    rw [if_neg b1]
    dsimp only
    rw [if_neg b2, if_pos b3]
    exact ⟨b3, rfl, handlesKeep_close_new e e.store e.handles hsame⟩
  by_cases b4 : f Step.set_pagesize ≠ 0
  · left
    unfold create_queue_db
    rw [if_neg b1]
    dsimp only
    rw [if_neg b2, if_neg b3, if_pos b4]
    exact ⟨b4, rfl, handlesKeep_close_new e e.store e.handles hsame⟩
  by_cases b5 : f Step.db_open ≠ 0
  · left
    unfold create_queue_db
    rw [if_neg b1]
    dsimp only
    rw [if_neg b2, if_neg b3, if_neg b4]
    unfold DB_open
    rw [if_pos b5]
    dsimp only
    rw [if_pos b5]
    exact ⟨b5, rfl, handlesKeep_close_new e e.store e.handles hsame⟩
  have b5z : f Step.db_open = 0 := not_not.mp b5
  by_cases b6 : f Step.create_put ≠ 0
  · left
    unfold create_queue_db
    rw [if_neg b1]
    dsimp only
    rw [if_neg b2, if_neg b3, if_neg b4]
    unfold DB_open DB_put
    rw [if_neg b5]
    dsimp only
    rw [if_neg (by simp), if_pos b6]
    dsimp only
    rw [if_pos b6]
    exact ⟨b6, rfl, handlesKeep_close_new e _ _ hcons⟩
  · right
    refine ⟨b5z, not_not.mp b6, ?_⟩
    unfold create_queue_db
    rw [if_neg b1]
    dsimp only
    rw [if_neg b2, if_neg b3, if_neg b4]
    unfold DB_open DB_put
    rw [if_neg b5]
    dsimp only
    rw [if_neg (by simp), if_neg b6]
    dsimp only
    rw [if_neg (by simp)]
    rfl

theorem bdb_put_eq (cfg : Settings) (f : Faults) (e : Env) (key : Key) (it : item) :
    bdb_put cfg f e key it =
      if f Step.txn_begin ≠ 0 then (-1, e)
      else
        match get_queue_db_handle f e key with
        | (ret, queue_rec) =>
          if ret ≠ 0 then (-1, txn_abort e e)
          else
            match (match queue_rec.queue_dbp with
              | none => create_queue_db cfg f e key
              | some dbp => (0, e, some dbp)) with
            | (_, e1, none) => (-1, txn_abort e e1)
            | (ret, e1, some queue_dbp) =>
              if ret ≠ 0 then (-1, txn_abort e e1)
              else put_tail cfg f e key it queue_rec e1 queue_dbp := by
  rfl

theorem DB_append_ok {cfg : Settings} {f : Int} {e : Env} {dbp : Nat} {it : item} {file : Key}
    {recs : List item} (hf0 : f = 0) (hh : tget dbp e.handles = some file)
    (hf : tget file e.store.files = some recs) :
    DB_append cfg f e dbp it =
      (0, { e with store := { e.store with
              files := appended_files cfg it file recs e.store.files } }) := by
  by_cases hl : cfg.re_len < it.length
  · simp [DB_append, hf0, hh, hf, hl, appended_files]
  · simp [DB_append, hf0, hh, hf, hl, appended_files]

theorem put_tail_cases (cfg : Settings) (f : Faults) (e0 : Env) (key : Key) (it : item)
    (qr : queue_rec_t) (e1 : Env) (dbp : Nat) :
    put_tail cfg f e0 key it qr e1 dbp = (-1, txn_abort e0 e1) ∨
    ∃ file recs,
      ¬ (cfg.max_queue_size ≠ 0 ∧ qr.queue_size + 1 > cfg.max_queue_size) ∧
      f Step.queue_put = 0 ∧ f Step.txn_commit = 0 ∧
      tget dbp e1.handles = some file ∧ tget file e1.store.files = some recs ∧
      ((cfg.max_queue_size = 0 ∧
          put_tail cfg f e0 key it qr e1 dbp =
            (0, { e1 with store := { e1.store with
                    files := appended_files cfg it file recs e1.store.files } })) ∨
       (cfg.max_queue_size ≠ 0 ∧ f Step.update_get = 0 ∧ f Step.update_put = 0 ∧
          ∃ r, tget key e1.store.qlist = some r ∧
            put_tail cfg f e0 key it qr e1 dbp =
              (0, { e1 with store :=
                    { qlist := tput key ⟨r.queue_dbp, r.queue_size + 1⟩ e1.store.qlist,
                      files := appended_files cfg it file recs e1.store.files } }))) := by
  by_cases c1 : cfg.max_queue_size ≠ 0 ∧ qr.queue_size + 1 > cfg.max_queue_size
  · left
    unfold put_tail
    rw [if_pos c1]
  by_cases a1 : f Step.queue_put = 0
  swap
  · left
    unfold put_tail
    rw [if_neg c1]
    simp [DB_append, a1]
  cases hh : tget dbp e1.handles with
  | none =>
    left
    unfold put_tail
    rw [if_neg c1]
    simp [DB_append, a1, hh, EINVAL]
  | some file =>
    cases hf : tget file e1.store.files with
    | none =>
      left
      unfold put_tail
      rw [if_neg c1]
      simp [DB_append, a1, hh, hf, ENOENT]
    | some recs =>
      have happ : DB_append cfg (f Step.queue_put) e1 dbp it =
          (0, { e1 with store := { e1.store with
                  files := appended_files cfg it file recs e1.store.files } }) :=
        DB_append_ok a1 hh hf
      by_cases c : cfg.max_queue_size = 0
      · by_cases a5 : f Step.txn_commit = 0
        · right
          refine ⟨file, recs, c1, a1, a5, rfl, hf, Or.inl ⟨c, ?_⟩⟩
          unfold put_tail
          rw [if_neg c1, happ]
          simp [c, a5]
        · left
          unfold put_tail
          rw [if_neg c1, happ]
          simp [c, a5, txn_abort_with_store2]
      · by_cases a6 : f Step.update_get = 0
        swap
        · left
          unfold put_tail
          rw [if_neg c1, happ]
          simp [c, uql_get_fault a6, a6, txn_abort_with_store2]
        cases hq : tget key e1.store.qlist with
        | none =>
          have hq1 : tget key ({ e1 with store := { e1.store with
              files := appended_files cfg it file recs e1.store.files } } : Env).store.qlist =
              none := hq
          left
          unfold put_tail
          rw [if_neg c1, happ]
          simp [c, uql_absent a6 hq1, DB_NOTFOUND, txn_abort_with_store2]
        | some r =>
          have hq1 : tget key ({ e1 with store := { e1.store with
              files := appended_files cfg it file recs e1.store.files } } : Env).store.qlist =
              some r := hq
          by_cases a7 : f Step.update_put = 0
          swap
          · left
            unfold put_tail
            rw [if_neg c1, happ]
            simp [c, uql_put_fault a6 hq1 a7, a7, txn_abort_with_store2]
          by_cases a5 : f Step.txn_commit = 0
          · right
            refine ⟨file, recs, c1, a1, a5, rfl, hf, Or.inr ⟨c, a6, a7, r, rfl, ?_⟩⟩
            unfold put_tail
            rw [if_neg c1, happ]
            simp [c, uql_ok a6 hq1 a7, a5]
          · left
            unfold put_tail
            rw [if_neg c1, happ]
            simp [c, uql_ok a6 hq1 a7, a5]
            rfl

theorem handlesKeep_created (e : Env) (key : Key) : HandlesKeep e (created_env e key) := by
  refine ⟨Nat.le_succ _, ?_⟩
  intro h hlt
  have hne : ¬ e.next = h := fun h2 => Nat.ne_of_lt hlt h2.symm
  simp [created_env, tget, hne]

theorem create_queue_db_ok_eq {cfg : Settings} {f : Faults} {e : Env} {key : Key}
    {x : Int × Env × Option Nat}
    (h : create_queue_db cfg f e key = x) (h0 : x.1 = 0) :
    x = (0, created_env e key, some e.next) := by
  rcases create_queue_db_cases cfg f e key with ⟨h1, _, _⟩ | ⟨_, _, h1⟩
  · rw [h] at h1; exact absurd h0 h1
  · rw [← h, h1]; rfl

theorem tget_filter_mem {l l0 : List (Nat × Key)} {h : Nat}
    (hm : ∀ file, tget h l = some file → (h, file) ∈ l0) :
    tget h (l.filter (fun p => decide (p ∈ l0))) = tget h l := by
  induction l with
  | nil => rfl
  | cons p t ih =>
    rw [tget_cons] at hm ⊢
    by_cases hp : p.1 = h
    · have hmem : p ∈ l0 := by
        have := hm p.2 (by rw [if_pos hp])
        rw [← hp] at this
        exact this
      rw [List.filter_cons_of_pos (by simpa using hmem), tget_cons, if_pos hp, if_pos hp]
    · rw [if_neg hp] at hm ⊢
      by_cases hmem : p ∈ l0
      · rw [List.filter_cons_of_pos (by simpa using hmem), tget_cons, if_neg hp]
        exact ih hm
      · rw [List.filter_cons_of_neg (by simpa using hmem)]
        exact ih hm

theorem handlesKeep_abort {e e1 : Env} (h : HandlesKeep e e1) :
    HandlesKeep e (txn_abort e e1) := by
  refine ⟨h.1, ?_⟩
  intro x hx
  have hk := h.2 x hx
  simp only [txn_abort]
  rw [tget_filter_mem, hk]
  intro file hf
  rw [hk] at hf
  exact mem_of_tget hf

theorem bdb_put_cases (cfg : Settings) (f : Faults) (e : Env) (key : Key) (it : item) :
    ((bdb_put cfg f e key it).1 = -1 ∧ (bdb_put cfg f e key it).2.store = e.store ∧
      HandlesKeep e (bdb_put cfg f e key it).2) ∨
    ∃ qr dbp e1 file recs,
      f Step.txn_begin = 0 ∧ get_queue_db_handle f e key = (0, qr) ∧
      ((qr.queue_dbp = some dbp ∧ e1 = e) ∨
        (qr.queue_dbp = none ∧ dbp = e.next ∧ e1 = created_env e key)) ∧
      ¬ (cfg.max_queue_size ≠ 0 ∧ qr.queue_size + 1 > cfg.max_queue_size) ∧
      tget dbp e1.handles = some file ∧ tget file e1.store.files = some recs ∧
      ((cfg.max_queue_size = 0 ∧
          bdb_put cfg f e key it =
            (0, { e1 with store := { e1.store with
                    files := appended_files cfg it file recs e1.store.files } })) ∨
       (cfg.max_queue_size ≠ 0 ∧
          ∃ r, tget key e1.store.qlist = some r ∧
            bdb_put cfg f e key it =
              (0, { e1 with store :=
                    { qlist := tput key ⟨r.queue_dbp, r.queue_size + 1⟩ e1.store.qlist,
                      files := appended_files cfg it file recs e1.store.files } }))) := by
  have tail : ∀ (qr : queue_rec_t) (e1 : Env) (dbp : Nat),
      get_queue_db_handle f e key = (0, qr) → f Step.txn_begin = 0 →
      HandlesKeep e e1 →
      ((qr.queue_dbp = some dbp ∧ e1 = e) ∨
        (qr.queue_dbp = none ∧ dbp = e.next ∧ e1 = created_env e key)) →
      bdb_put cfg f e key it = put_tail cfg f e key it qr e1 dbp →
      ((bdb_put cfg f e key it).1 = -1 ∧ (bdb_put cfg f e key it).2.store = e.store ∧
        HandlesKeep e (bdb_put cfg f e key it).2) ∨
      ∃ qr dbp e1 file recs,
        f Step.txn_begin = 0 ∧ get_queue_db_handle f e key = (0, qr) ∧
        ((qr.queue_dbp = some dbp ∧ e1 = e) ∨
          (qr.queue_dbp = none ∧ dbp = e.next ∧ e1 = created_env e key)) ∧
        ¬ (cfg.max_queue_size ≠ 0 ∧ qr.queue_size + 1 > cfg.max_queue_size) ∧
        tget dbp e1.handles = some file ∧ tget file e1.store.files = some recs ∧
        ((cfg.max_queue_size = 0 ∧
            bdb_put cfg f e key it =
              (0, { e1 with store := { e1.store with
                      files := appended_files cfg it file recs e1.store.files } })) ∨
         (cfg.max_queue_size ≠ 0 ∧
            ∃ r, tget key e1.store.qlist = some r ∧
              bdb_put cfg f e key it =
                (0, { e1 with store :=
                      { qlist := tput key ⟨r.queue_dbp, r.queue_size + 1⟩ e1.store.qlist,
                        files := appended_files cfg it file recs e1.store.files } }))) := by
    intro qr e1 dbp hg hb hs hor heq
    rcases put_tail_cases cfg f e key it qr e1 dbp with h | ⟨file, recs, c1, _, _, hh, hf, h⟩
    · left
      rw [heq, h]
      exact ⟨rfl, rfl, handlesKeep_abort hs⟩
    · right
      refine ⟨qr, dbp, e1, file, recs, hb, hg, hor, c1, hh, hf, ?_⟩
      rcases h with ⟨c, h⟩ | ⟨c, _, _, r, hr, h⟩
      · exact Or.inl ⟨c, by rw [heq, h]⟩
      · exact Or.inr ⟨c, r, hr, by rw [heq, h]⟩
  by_cases a1 : f Step.txn_begin ≠ 0
  · left
    rw [bdb_put_eq, if_pos a1]
    exact ⟨rfl, rfl, handlesKeep_refl e⟩
  have a1z : f Step.txn_begin = 0 := not_not.mp a1
  obtain ⟨ret, qr, hg⟩ : ∃ ret qr, get_queue_db_handle f e key = (ret, qr) := ⟨_, _, rfl⟩
  by_cases a2 : ret ≠ 0
  · left
    rw [bdb_put_eq, if_neg a1, hg]
    dsimp only
    rw [if_pos a2, txn_abort_self]
    exact ⟨rfl, rfl, handlesKeep_refl e⟩
  have a2z : ret = 0 := not_not.mp a2
  subst a2z
  cases hd : qr.queue_dbp with
  | some dbp =>
    apply tail qr e dbp hg a1z (handlesKeep_refl e) (Or.inl ⟨hd, rfl⟩)
    rw [bdb_put_eq, if_neg a1, hg]
    dsimp only
    rw [if_neg a2, hd]
    dsimp only
    rw [if_neg a2]
  | none =>
    obtain ⟨r, e1, o, hc⟩ : ∃ r e1 o, create_queue_db cfg f e key = (r, e1, o) :=
      ⟨_, _, _, rfl⟩
    by_cases a3 : r = 0
    · have := create_queue_db_ok_eq hc a3
      simp only [Prod.mk.injEq] at this
      obtain ⟨_, h2, h3⟩ := this
      subst h2 h3
      apply tail qr (created_env e key) e.next hg a1z (handlesKeep_created e key)
        (Or.inr ⟨hd, rfl, rfl⟩)
      rw [bdb_put_eq, if_neg a1, hg]
      dsimp only
      rw [if_neg a2, hd]
      dsimp only
      rw [hc]
      dsimp only
      rw [if_neg (by simpa using a3)]
    · left
      have hs : HandlesKeep e e1 := by
        rcases create_queue_db_cases cfg f e key with ⟨_, _, h3⟩ | ⟨_, _, h3⟩
        · rw [hc] at h3; exact h3
        · rw [hc] at h3
          simp only [Prod.mk.injEq] at h3
          exact absurd h3.1 a3
      rw [bdb_put_eq, if_neg a1, hg]
      dsimp only
      rw [if_neg a2, hd]
      dsimp only
      rw [hc]
      cases o with
      | none => exact ⟨rfl, rfl, handlesKeep_abort hs⟩
      | some d =>
        dsimp only
        rw [if_pos a3]
        exact ⟨rfl, rfl, handlesKeep_abort hs⟩

/-! ## Delete -/

theorem handlesShrink_close (e : Env) (dbp : Nat) : HandlesShrink e (DB_close e dbp) := by
  refine ⟨Nat.le_refl _, ?_⟩
  intro h _ file hf
  simp only [DB_close] at hf
  by_cases hne : h = dbp
  · subst hne
    rw [tget_tdel_same] at hf
    exact absurd hf (by simp)
  · rwa [tget_tdel_ne hne] at hf

theorem txn_abort_close (e : Env) (dbp : Nat) : txn_abort e (DB_close e dbp) = DB_close e dbp := by
  have h := txn_abort_handles_sub e (DB_close e dbp) (by
    intro p hp
    simp only [DB_close, tdel, List.mem_filter] at hp
    exact hp.1)
  cases e
  simp only [txn_abort, DB_close] at h ⊢
  rw [h]

theorem txn_abort_close_store (e : Env) (dbp : Nat) (s : Store) :
    txn_abort e { DB_close e dbp with store := s } = DB_close e dbp := by
  rw [txn_abort_with_store2, txn_abort_close]

theorem delete_queue_db_cases (f : Faults) (e : Env) (name : Key) :
    (delete_queue_db f e name = none ∧
      ∃ h sz, tget name e.store.qlist = some ⟨some h, sz⟩ ∧
        (tdel h e.handles).any (fun p => decide (p.2 = cstr name)) = true) ∨
    (∃ e1, delete_queue_db f e name = some (1, e1) ∧ e1.store = e.store ∧
      HandlesShrink e e1) ∨
    ∃ h sz file recs,
      f Step.txn_begin = 0 ∧ f Step.lookup_get = 0 ∧ f Step.db_close = 0 ∧
      f Step.dbremove = 0 ∧ f Step.qlist_del = 0 ∧ f Step.txn_commit = 0 ∧
      tget name e.store.qlist = some ⟨some h, sz⟩ ∧ tget h e.handles = some file ∧
      tget (cstr name) e.store.files = some recs ∧
      (tdel h e.handles).any (fun p => decide (p.2 = cstr name)) = false ∧
      delete_queue_db f e name =
        some (0, { store := { qlist := tdel name e.store.qlist,
                              files := tdel (cstr name) e.store.files },
                   handles := tdel h e.handles, next := e.next }) := by
  by_cases a1 : f Step.txn_begin = 0
  swap
  · right; left
    exact ⟨e, by simp [delete_queue_db, a1], rfl, handlesShrink_refl e⟩
  by_cases a3 : f Step.lookup_get = 0
  swap
  · right; left
    refine ⟨e, ?_, rfl, handlesShrink_refl e⟩
    by_cases a3n : f Step.lookup_get = DB_NOTFOUND
    · simp [delete_queue_db, a1, gqh_notfound a3n]
    · simp [delete_queue_db, a1, gqh_error a3 a3n]
  cases hq : tget name e.store.qlist with
  | none =>
    right; left
    exact ⟨e, by simp [delete_queue_db, a1, gqh_absent a3 hq], rfl, handlesShrink_refl e⟩
  | some qr =>
    obtain ⟨dbp, sz⟩ := qr
    cases dbp with
    | none =>
      right; left
      exact ⟨e, by simp [delete_queue_db, a1, gqh_found a3 hq], rfl, handlesShrink_refl e⟩
    | some h =>
      have hs := handlesShrink_close e h
      by_cases a4 : f Step.db_close = 0
      swap
      · right; left
        refine ⟨DB_close e h, ?_, rfl, hs⟩
        simp [delete_queue_db, a1, gqh_found a3 hq, DB_close_ret, a4, txn_abort_close]
      cases hh : tget h e.handles with
      | none =>
        right; left
        refine ⟨DB_close e h, ?_, rfl, hs⟩
        simp [delete_queue_db, a1, gqh_found a3 hq, DB_close_ret, a4, hh, EINVAL,
          txn_abort_close]
      | some file =>
        by_cases a5 : f Step.dbremove = 0
        swap
        · right; left
          refine ⟨DB_close e h, ?_, rfl, hs⟩
          simp [delete_queue_db, a1, gqh_found a3 hq, DB_close_ret, a4, hh, DB_ENV_dbremove, a5,
            txn_abort_close]
        cases hf : tget (cstr name) e.store.files with
        | none =>
          have hf1 : tget (cstr name) (DB_close e h).store.files = none := hf
          right; left
          refine ⟨DB_close e h, ?_, rfl, hs⟩
          simp [delete_queue_db, a1, gqh_found a3 hq, DB_close_ret, a4, hh, DB_ENV_dbremove, a5,
            hf1, ENOENT, txn_abort_close]
        | some recs =>
          have hf1 : tget (cstr name) (DB_close e h).store.files = some recs := hf
          have hq1 : tget name (DB_close e h).store.qlist = some ⟨some h, sz⟩ := hq
          cases hany : (tdel h e.handles).any (fun p => decide (p.2 = cstr name)) with
          | true =>
            left
            have hany1 : (DB_close e h).handles.any (fun p => decide (p.2 = cstr name)) = true :=
              hany
            refine ⟨?_, h, sz, rfl, hany⟩
            simp [delete_queue_db, a1, gqh_found a3 hq, DB_close_ret, a4, hh, DB_ENV_dbremove, a5,
              hf1, hany1]
          | false =>
            have hany1 : (DB_close e h).handles.any (fun p => decide (p.2 = cstr name)) = false :=
              hany
            by_cases a6 : f Step.qlist_del = 0
            swap
            · right; left
              refine ⟨DB_close e h, ?_, rfl, hs⟩
              simp [delete_queue_db, a1, gqh_found a3 hq, DB_close_ret, a4, hh, DB_ENV_dbremove,
                a5, hf1, hany1, DB_del, a6, txn_abort_close_store]
            by_cases a7 : f Step.txn_commit = 0
            swap
            · right; left
              refine ⟨DB_close e h, ?_, rfl, hs⟩
              simp [delete_queue_db, a1, gqh_found a3 hq, DB_close_ret, a4, hh, DB_ENV_dbremove,
                a5, hf1, hany1, DB_del, a6, hq1, a7, txn_abort_close_store]
            · right; right
              refine ⟨h, sz, file, recs, a1, a3, a4, a5, a6, a7, rfl, hh, rfl, hany, ?_⟩
              simp [delete_queue_db, a1, gqh_found a3 hq, DB_close_ret, a4, hh, DB_ENV_dbremove,
                a5, hf1, hany1, DB_del, a6, hq1, a7]
              exact ⟨⟨rfl, rfl⟩, rfl, rfl⟩

/-! ## FIFO order on one queue -/

theorem put_absent (cfg : Settings) (hcap : cfg.max_queue_size = 0) (e : Env) (name : Key)
    (p : item) (hp : p.length ≤ cfg.re_len)
    (h1 : tget name e.store.qlist = none) (h2 : tget (cstr name) e.store.files = none) :
    (bdb_put cfg no_faults e name p).1 = 0 ∧ Holds (bdb_put cfg no_faults e name p).2 name [p] := by
  have hp2 : ¬ cfg.re_len < p.length := by omega
  simp [bdb_put, get_queue_db_handle, DB_get, no_faults, h1, create_queue_db, DB_open, h2,
    DB_put, hcap, DB_append, tget, tget_tput_same, hp2, DB_NOTFOUND, Holds]

theorem put_holds (cfg : Settings) (hcap : cfg.max_queue_size = 0) (e : Env) (name : Key)
    (p : item) (hp : p.length ≤ cfg.re_len) (recs : List item) (h : Holds e name recs) :
    (bdb_put cfg no_faults e name p).1 = 0 ∧
      Holds (bdb_put cfg no_faults e name p).2 name (recs ++ [p]) := by
  have hp2 : ¬ cfg.re_len < p.length := by omega
  obtain ⟨h, sz, h1, h2, h3⟩ := h
  simp [bdb_put, get_queue_db_handle, DB_get, no_faults, h1, h2, h3,
    DB_put, hcap, DB_append, tget_tput_same, hp2, Holds]

theorem get_holds_cons (cfg : Settings) (hcap : cfg.max_queue_size = 0) (e : Env) (name : Key)
    (r : item) (rest : List item) (h : Holds e name (r :: rest)) :
    (bdb_get cfg no_faults e name).1 = some r ∧
      Holds (bdb_get cfg no_faults e name).2 name rest := by
  obtain ⟨h, sz, h1, h2, h3⟩ := h
  simp [bdb_get, get_queue_db_handle, DB_get, no_faults, h1, h2, h3,
    hcap, DB_consume, tget_tput_same, Holds]

theorem get_holds_nil (cfg : Settings) (f : Faults) (e : Env) (name : Key)
    (h : Holds e name []) : (bdb_get cfg f e name).1 = none := by
  obtain ⟨h, sz, h1, h2, h3⟩ := h
  rcases bdb_get_cases cfg f e name with h4 | ⟨h', sz', file, r, rest, _, _, _, _, _, h5, h6, h7, _⟩
  · rw [h4]
  · rw [h1] at h5
    simp only [Option.some.injEq, queue_rec_t.mk.injEq] at h5
    obtain ⟨h5, _⟩ := h5
    subst h5
    rw [h2] at h6
    simp only [Option.some.injEq] at h6
    subst h6
    rw [h3] at h7
    simp at h7

theorem put_all_holds (cfg : Settings) (hcap : cfg.max_queue_size = 0) (name : Key)
    (ps : List item) (hlen : ∀ p ∈ ps, p.length ≤ cfg.re_len) :
    ∀ (e : Env) (recs : List item), Holds e name recs →
      (put_all cfg no_faults name e ps).1 = List.replicate ps.length 0 ∧
        Holds (put_all cfg no_faults name e ps).2 name (recs ++ ps) := by
  induction ps with
  | nil => intro e recs h; simpa [put_all] using h
  | cons p ps ih =>
    intro e recs h
    have hp := put_holds cfg hcap e name p (hlen p (List.mem_cons_self _ _)) recs h
    have := ih (fun q hq => hlen q (List.mem_cons_of_mem _ hq)) _ _ hp.2
    simp only [put_all, List.length_cons, List.replicate_succ]
    refine ⟨by rw [hp.1, this.1], ?_⟩
    simpa using this.2

theorem get_n_holds (cfg : Settings) (hcap : cfg.max_queue_size = 0) (name : Key) :
    ∀ (recs : List item) (e : Env), Holds e name recs →
      (get_n cfg no_faults name e (recs.length + 1)).1 = recs.map some ++ [none] := by
  intro recs
  induction recs with
  | nil =>
    intro e h
    simp [get_n, get_holds_nil cfg no_faults e name h]
  | cons r rest ih =>
    intro e h
    have hg := get_holds_cons cfg hcap e name r rest h
    have := ih _ hg.2
    simp only [List.length_cons, List.map_cons, List.cons_append]
    rw [get_n]
    simp only [hg.1, this]

/-! ## Dequeue on an absent or empty queue -/

theorem tget_tput_none_iff {β : Type} {k n : Key} {v : β} {l : List (Key × β)}
    (h : tget k l ≠ none) : tget n (tput k v l) = none ↔ tget n l = none := by
  rw [tget_tput]
  by_cases hn : n = k
  · subst hn; simp [h]
  · simp [hn]

theorem bdb_get_null_of (cfg : Settings) (f : Faults) (e : Env) (name : Key)
    (h : tget name e.store.qlist = none ∨ (∃ sz, tget name e.store.qlist = some ⟨none, sz⟩) ∨
      (∃ h sz file, tget name e.store.qlist = some ⟨some h, sz⟩ ∧
        tget h e.handles = some file ∧
        (tget file e.store.files = none ∨ tget file e.store.files = some []))) :
    bdb_get cfg f e name = (none, e) := by
  rcases bdb_get_cases cfg f e name with h4 | ⟨h', sz', file', r, rest, _, _, _, _, _, h5, h6, h7, _⟩
  · exact h4
  · exfalso
    rcases h with h | ⟨sz, h⟩ | ⟨h1, sz, file, h, h2, h3⟩
    · rw [h] at h5; simp at h5
    · rw [h] at h5; simp at h5
    · rw [h] at h5
      simp only [Option.some.injEq, queue_rec_t.mk.injEq] at h5
      obtain ⟨h5, _⟩ := h5
      subst h5
      rw [h2] at h6
      simp only [Option.some.injEq] at h6
      subst h6
      rcases h3 with h3 | h3 <;> rw [h3] at h7 <;> simp at h7

/-! ## The catalog and the files agree -/

theorem cstr_of_noNul {k : Key} (h : NoNul k) : cstr k = k := by
  unfold cstr
  rw [List.takeWhile_eq_self_iff]
  intro c hc
  simp only [bne_iff_ne, ne_eq]
  intro hcn
  exact h (hcn ▸ hc)

theorem inv_fresh : Inv fresh := by
  refine ⟨?_, ?_⟩
  · intro p hp; simp [fresh] at hp
  · intro g hg; simp [fresh, tget] at hg

theorem inv_of_store_eq {e e1 : Env} (hi : Inv e) (hs : e1.store = e.store)
    (hh : HandlesShrink e e1) : Inv e1 := by
  obtain ⟨h1, h2⟩ := hi
  refine ⟨?_, ?_⟩
  · intro p hp
    rw [hs] at hp
    obtain ⟨a, ⟨h, b1, b2, b3⟩, c⟩ := h1 p hp
    refine ⟨a, ⟨h, b1, Nat.lt_of_lt_of_le b2 hh.1, ?_⟩, ?_⟩
    · intro file hf
      exact b3 file (hh.2 h b2 file hf)
    · rw [hs]; exact c
  · rw [hs]; exact h2

theorem inv_update {e : Env} (hi : Inv e) {key : Key} {h : Nat} {sz : Int}
    (hq : tget key e.store.qlist = some ⟨some h, sz⟩) (recs : List item) :
    Inv { e with store := { qlist := tput key ⟨some h, (recs.length : Int)⟩ e.store.qlist,
                            files := tput key recs e.store.files } } := by
  obtain ⟨h1, h2⟩ := hi
  have hm := mem_of_tget hq
  obtain ⟨a, ⟨h0, b1, b2, b3⟩, _⟩ := h1 _ hm
  simp only [Option.some.injEq] at b1
  subst b1
  refine ⟨?_, ?_⟩
  · intro p hp
    simp only at hp
    rw [mem_tput] at hp
    rcases hp with hp | ⟨hp, hne⟩
    · subst hp
      exact ⟨a, ⟨h, rfl, b2, b3⟩, recs, tget_tput_same _ _ _, rfl⟩
    · obtain ⟨a1, hb, recs1, c1, c2⟩ := h1 p hp
      refine ⟨a1, hb, recs1, ?_, c2⟩
      simp only
      rw [tget_tput_ne hne]
      exact c1
  · intro g hg
    simp only at hg ⊢
    rw [tget_tput] at hg ⊢
    by_cases hgk : g = key
    · simp [hgk]
    · simp only [hgk, if_false] at hg ⊢
      exact h2 g hg

theorem inv_created {e : Env} (hi : Inv e) {key : Key} (hk : NoNul key)
    (hq : tget key e.store.qlist = none) : Inv (created_env e key) := by
  obtain ⟨h1, h2⟩ := hi
  have hf : tget key e.store.files = none := by
    by_contra hc
    exact h2 key hc hq
  have hc := cstr_of_noNul hk
  have hfiles : (created_env e key).store.files = tput key [] e.store.files := by
    simp [created_env, hc, opened_files, hf]
  refine ⟨?_, ?_⟩
  · intro p hp
    simp only [created_env] at hp
    rw [mem_tput] at hp
    rcases hp with hp | ⟨hp, hne⟩
    · subst hp
      refine ⟨hk, ⟨e.next, rfl, Nat.lt_succ_self _, ?_⟩, [], ?_, rfl⟩
      · intro file hfile
        simp [created_env, tget, hc] at hfile
        exact hfile.symm
      · rw [hfiles]; exact tget_tput_same _ _ _
    · obtain ⟨a1, ⟨h, b1, b2, b3⟩, recs1, c1, c2⟩ := h1 p hp
      refine ⟨a1, ⟨h, b1, Nat.lt_succ_of_lt b2, ?_⟩, recs1, ?_, c2⟩
      · intro file hfile
        have hne2 : ¬ e.next = h := fun h3 => Nat.ne_of_lt b2 h3.symm
        simp [created_env, tget, hne2] at hfile
        exact b3 file hfile
      · rw [hfiles, tget_tput_ne hne]; exact c1
  · intro g hg
    rw [hfiles] at hg
    simp only [created_env]
    rw [tget_tput] at hg ⊢
    by_cases hgk : g = key
    · simp [hgk]
    · simp only [hgk, if_false] at hg ⊢
      exact h2 g hg

theorem inv_deleted {e : Env} (hi : Inv e) {key : Key} (hk : NoNul key) (h : Nat) :
    Inv { store := { qlist := tdel key e.store.qlist, files := tdel (cstr key) e.store.files },
          handles := tdel h e.handles, next := e.next } := by
  obtain ⟨h1, h2⟩ := hi
  rw [cstr_of_noNul hk]
  refine ⟨?_, ?_⟩
  · intro p hp
    simp only at hp
    rw [mem_tdel] at hp
    obtain ⟨hp, hne⟩ := hp
    obtain ⟨a1, ⟨h0, b1, b2, b3⟩, recs1, c1, c2⟩ := h1 p hp
    refine ⟨a1, ⟨h0, b1, b2, ?_⟩, recs1, ?_, c2⟩
    · intro file hfile
      exact b3 file ((handlesShrink_close e h).2 h0 b2 file hfile)
    · simp only
      rw [tget_tdel_ne hne]; exact c1
  · intro g hg
    simp only at hg ⊢
    by_cases hgk : g = key
    · subst hgk
      rw [tget_tdel_same] at hg
      exact absurd rfl hg
    · rw [tget_tdel_ne hgk] at hg ⊢
      exact h2 g hg

theorem gqh_ok_cases {f : Faults} {e : Env} {k : Key} {qr : queue_rec_t}
    (hn : f Step.lookup_get ≠ DB_NOTFOUND) (h : get_queue_db_handle f e k = (0, qr)) :
    f Step.lookup_get = 0 ∧
      (tget k e.store.qlist = some qr ∨
        (tget k e.store.qlist = none ∧ qr = ⟨none, 0⟩)) := by
  by_cases a : f Step.lookup_get = 0
  · refine ⟨a, ?_⟩
    cases hq : tget k e.store.qlist with
    | none =>
      rw [gqh_absent a hq] at h
      simp only [Prod.mk.injEq, true_and] at h
      exact Or.inr ⟨rfl, h.symm⟩
    | some r =>
      rw [gqh_found a hq] at h
      simp only [Prod.mk.injEq, true_and] at h
      exact Or.inl (by rw [h])
  · rw [gqh_error a hn] at h
    simp only [Prod.mk.injEq] at h
    exact absurd h.1 a

theorem put_success_shape {f : Faults} {e : Env} {key : Key}
    (hi : Inv e) (hk : NoNul key) (hn : f Step.lookup_get ≠ DB_NOTFOUND)
    {qr : queue_rec_t} {dbp : Nat} {e1 : Env} {file : Key} {recs : List item}
    (hg : get_queue_db_handle f e key = (0, qr))
    (hor : (qr.queue_dbp = some dbp ∧ e1 = e) ∨
      (qr.queue_dbp = none ∧ dbp = e.next ∧ e1 = created_env e key))
    (hh : tget dbp e1.handles = some file) (hf : tget file e1.store.files = some recs) :
    Inv e1 ∧ HandlesKeep e e1 ∧ file = key ∧
      tget key e1.store.qlist = some ⟨some dbp, (recs.length : Int)⟩ ∧
      qr.queue_size = recs.length ∧
      (∀ p ∈ e1.store.qlist, p.1 ≠ key → p ∈ e.store.qlist) := by
  obtain ⟨_, hcase⟩ := gqh_ok_cases hn hg
  rcases hor with ⟨hd, rfl⟩ | ⟨hd, rfl, rfl⟩
  · rcases hcase with hq | ⟨_, hz⟩
    swap
    · rw [hz] at hd; simp at hd
    have hm := mem_of_tget hq
    obtain ⟨_, ⟨h0, b1, _, b3⟩, recs1, c1, c2⟩ := hi.1 _ hm
    rw [hd] at b1
    simp only [Option.some.injEq] at b1
    subst b1
    have hfile : file = key := b3 file hh
    subst hfile
    rw [c1] at hf
    simp only [Option.some.injEq] at hf
    subst hf
    refine ⟨hi, handlesKeep_refl _, rfl, ?_, c2, fun p hp _ => hp⟩
    rw [hq]
    obtain ⟨d, s⟩ := qr
    simp only at hd c2
    rw [hd, c2]
  · rcases hcase with hq | ⟨hq, hz⟩
    · have hm := mem_of_tget hq
      obtain ⟨_, ⟨h0, b1, _, _⟩, _⟩ := hi.1 _ hm
      rw [hd] at b1; simp at b1
    have hi1 := inv_created hi hk hq
    have hq1 : tget key (created_env e key).store.qlist = some ⟨some e.next, 0⟩ := by
      simp only [created_env]; exact tget_tput_same _ _ _
    have hm := mem_of_tget hq1
    obtain ⟨_, ⟨h0, b1, _, b3⟩, recs1, c1, c2⟩ := hi1.1 _ hm
    simp only [Option.some.injEq] at b1
    subst b1
    have hfile : file = key := b3 file hh
    subst hfile
    rw [hf] at c1
    simp only [Option.some.injEq] at c1
    subst c1
    simp only at c2
    refine ⟨hi1, handlesKeep_created e _, rfl, ?_, ?_, ?_⟩
    · rw [hq1, c2]
    · rw [hz]; exact c2
    · intro p hp hne
      simp only [created_env] at hp
      rw [mem_tput] at hp
      rcases hp with hp | ⟨hp, _⟩
      · rw [hp] at hne; exact absurd rfl hne
      · exact hp

theorem inv_put {cfg : Settings} (hc : cfg.max_queue_size ≠ 0) {f : Faults} {e : Env}
    {key : Key} (it : item) (hfit : it.length ≤ cfg.re_len) (hi : Inv e) (hk : NoNul key)
    (hn : f Step.lookup_get ≠ DB_NOTFOUND) : Inv (bdb_put cfg f e key it).2 := by
  rcases bdb_put_cases cfg f e key it with ⟨_, h2, h3⟩ |
    ⟨qr, dbp, e1, file, recs, _, hg, hor, _, hh, hf, h2⟩
  · exact inv_of_store_eq hi h2 (handlesKeep_shrink h3)
  · obtain ⟨hi1, _, hfile, hq1, _, _⟩ := put_success_shape hi hk hn hg hor hh hf
    subst hfile
    have happ : appended_files cfg it file recs e1.store.files =
        tput file (recs ++ [it]) e1.store.files := by
      simp only [appended_files, if_neg (Nat.not_lt.mpr hfit)]
    rcases h2 with ⟨c0, _⟩ | ⟨_, r, hr, h2⟩
    · exact absurd c0 hc
    · rw [h2, happ]
      rw [hq1] at hr
      simp only [Option.some.injEq] at hr
      subst hr
      have := inv_update hi1 hq1 (recs ++ [it])
      simpa using this

theorem inv_get {cfg : Settings} (hc : cfg.max_queue_size ≠ 0) {f : Faults} {e : Env}
    {key : Key} (hi : Inv e) : Inv (bdb_get cfg f e key).2 := by
  rcases bdb_get_cases cfg f e key with h | ⟨h, sz, file, r, rest, _, _, _, _, _, hq, hh, hf, h2⟩
  · rw [h]; exact hi
  · have hm := mem_of_tget hq
    obtain ⟨_, ⟨h0, b1, _, b3⟩, recs1, c1, c2⟩ := hi.1 _ hm
    simp only [Option.some.injEq] at b1
    subst b1
    have hfile : file = key := b3 file hh
    subst hfile
    rw [hf] at c1
    simp only [Option.some.injEq] at c1
    subst c1
    simp only [List.length_cons, Nat.cast_add, Nat.cast_one] at c2
    rcases h2 with ⟨c0, _⟩ | ⟨_, _, _, h2⟩
    · exact absurd c0 hc
    · rw [h2]
      have := inv_update hi hq rest
      have hsz : sz - 1 = (rest.length : Int) := by omega
      rw [hsz]
      exact this

theorem inv_del {f : Faults} {e : Env} {key : Key} (hi : Inv e) (hk : NoNul key)
    {r : Int × Env} (hr : delete_queue_db f e key = some r) : Inv r.2 := by
  rcases delete_queue_db_cases f e key with ⟨h1, _⟩ | ⟨e1, h1, h2, h3⟩ |
    ⟨h, sz, file, recs, _, _, _, _, _, _, _, _, _, _, h2⟩
  · rw [h1] at hr; exact absurd hr (by simp)
  · rw [h1] at hr
    simp only [Option.some.injEq] at hr
    subst hr
    exact inv_of_store_eq hi h2 h3
  · rw [h2] at hr
    simp only [Option.some.injEq] at hr
    subst hr
    exact inv_deleted hi hk h

theorem inv_exec {cfg : Settings} (hc : cfg.max_queue_size ≠ 0) {e : Env} (hi : Inv e)
    {c : Call} (hok : CallOk c) (hfit : CallFits cfg c) {r : Out × Env}
    (hr : exec cfg e c = some r) : Inv r.2 := by
  cases c with
  | put f k it =>
    simp only [exec, Option.some.injEq] at hr
    subst hr
    exact inv_put hc it hfit hi hok.1 hok.2
  | get f k =>
    simp only [exec, Option.some.injEq] at hr
    subst hr
    exact inv_get hc hi
  | del f k =>
    simp only [exec] at hr
    cases hd : delete_queue_db f e k with
    | none => rw [hd] at hr; exact absurd hr (by simp)
    | some d =>
      rw [hd] at hr
      simp only [Option.some.injEq] at hr
      subst hr
      exact inv_del hi hok.1 hd

theorem inv_run {cfg : Settings} (hc : cfg.max_queue_size ≠ 0) (cs : List Call) :
    ∀ e, Inv e → (∀ c ∈ cs, CallOk c ∧ CallFits cfg c) → Inv (run cfg e cs) := by
  induction cs with
  | nil => intro e hi _; exact hi
  | cons c cs ih =>
    intro e hi hok
    simp only [run]
    cases hx : exec cfg e c with
    | none => exact hi
    | some r =>
      have hc1 := hok c (List.mem_cons_self _ _)
      exact ih _ (inv_exec hc hi hc1.1 hc1.2 hx) (fun d hd => hok d (List.mem_cons_of_mem _ hd))

/-- Length accuracy for items that fit a record: with a cap configured, in
every state reached from the fresh environment by `bdb_put`, `bdb_get` and
`delete_queue_db` calls under any faults (NUL-free names; not-found reported
by the catalog lookup only for absent keys; every item put at most `re_len`
long), every catalog entry has a queue file of its name, and its length is the
number of records in it. -/
theorem length_accuracy_fitting (cfg : Settings) (hc : 0 < cfg.max_queue_size)
    (cs : List Call) (hok : ∀ c ∈ cs, CallOk c ∧ CallFits cfg c) :
    ∀ p ∈ (run cfg fresh cs).store.qlist,
      ∃ recs, tget p.1 (run cfg fresh cs).store.files = some recs ∧
        p.2.queue_size = recs.length := by
  intro p hp
  have hi := inv_run (Int.ne_of_gt hc) cs fresh inv_fresh hok
  exact (hi.1 p hp).2.2

/-! ## Cap enforcement -/

theorem oc_fresh (c : Int) : OpenCapped c fresh := by
  refine ⟨?_, ?_⟩ <;> intro p hp <;> simp [fresh] at hp

theorem oc_put {cfg : Settings} (hc : cfg.max_queue_size ≠ 0) {f : Faults} {e : Env}
    {key : Key} (it : item) (hi : Inv e) (ho : OpenCapped cfg.max_queue_size e)
    (hk : NoNul key) (hn : f Step.lookup_get ≠ DB_NOTFOUND) :
    OpenCapped cfg.max_queue_size (bdb_put cfg f e key it).2 := by
  rcases bdb_put_cases cfg f e key it with ⟨_, h2, h3⟩ |
    ⟨qr, dbp, e1, file, recs, _, hg, hor, hcap, hh, hf, h2⟩
  · refine ⟨?_, ?_⟩
    · intro p hp h hph
      rw [h2] at hp
      obtain ⟨_, ⟨h0, b1, b2, _⟩, _⟩ := hi.1 p hp
      rw [hph] at b1
      simp only [Option.some.injEq] at b1
      subst b1
      rw [h3.2 h b2]
      exact ho.1 p hp h hph
    · intro p hp
      rw [h2] at hp
      exact ho.2 p hp
  · obtain ⟨hi1, hkeep, hfile, hq1, hsz, hold⟩ := put_success_shape hi hk hn hg hor hh hf
    subst hfile
    rcases h2 with ⟨c0, _⟩ | ⟨_, r, hr, h2⟩
    · exact absurd c0 hc
    · rw [h2]
      rw [hq1] at hr
      simp only [Option.some.injEq] at hr
      subst hr
      have hle : (recs.length : Int) + 1 ≤ cfg.max_queue_size := by
        have : ¬ (qr.queue_size + 1 > cfg.max_queue_size) := fun h => hcap ⟨hc, h⟩
        rw [hsz] at this
        omega
      refine ⟨?_, ?_⟩
      · intro p hp h hph
        simp only at hp ⊢
        rw [mem_tput] at hp
        rcases hp with hp | ⟨hp, hne⟩
        · subst hp
          simp only [Option.some.injEq] at hph
          subst hph
          exact ⟨_, hh⟩
        · have hpe := hold p hp hne
          obtain ⟨_, ⟨h0, b1, b2, _⟩, _⟩ := hi.1 p hpe
          rw [hph] at b1
          simp only [Option.some.injEq] at b1
          subst b1
          rw [hkeep.2 h b2]
          exact ho.1 p hpe h hph
      · intro p hp
        simp only at hp
        rw [mem_tput] at hp
        rcases hp with hp | ⟨hp, hne⟩
        · subst hp; exact hle
        · exact ho.2 p (hold p hp hne)

theorem oc_get {cfg : Settings} {f : Faults} {e : Env} {key : Key}
    (ho : OpenCapped cfg.max_queue_size e) :
    OpenCapped cfg.max_queue_size (bdb_get cfg f e key).2 := by
  rcases bdb_get_cases cfg f e key with h | ⟨h, sz, file, r, rest, _, _, _, _, _, hq, hh, hf, h2⟩
  · rw [h]; exact ho
  · have hm := mem_of_tget hq
    have hsz := ho.2 _ hm
    simp only at hsz
    rcases h2 with ⟨_, h2⟩ | ⟨_, _, _, h2⟩
    · rw [h2]; exact ho
    · rw [h2]
      refine ⟨?_, ?_⟩
      · intro p hp h1 hph
        simp only at hp ⊢
        rw [mem_tput] at hp
        rcases hp with hp | ⟨hp, _⟩
        · subst hp
          simp only [Option.some.injEq] at hph
          subst hph
          exact ⟨_, hh⟩
        · exact ho.1 p hp h1 hph
      · intro p hp
        simp only at hp
        rw [mem_tput] at hp
        rcases hp with hp | ⟨hp, _⟩
        · subst hp; simp only; omega
        · exact ho.2 p hp

theorem plain_ok {cfg : Settings} {c : Call} (h : PlainCall cfg c) : CallOk c := by
  cases c with
  | put f k it =>
    obtain ⟨hf, hk, _⟩ := h
    subst hf
    exact ⟨hk, by simp [Call.faults, no_faults, DB_NOTFOUND]⟩
  | get f k =>
    obtain ⟨hf, hk⟩ := h
    subst hf
    exact ⟨hk, by simp [Call.faults, no_faults, DB_NOTFOUND]⟩
  | del f k => exact absurd h (by simp [PlainCall])

theorem plain_fits {cfg : Settings} {c : Call} (h : PlainCall cfg c) : CallFits cfg c := by
  cases c with
  | put f k it => exact h.2.2
  | get f k => exact True.intro
  | del f k => exact True.intro

theorem oc_run {cfg : Settings} (hc : cfg.max_queue_size ≠ 0) (cs : List Call) :
    ∀ e, Inv e → OpenCapped cfg.max_queue_size e → (∀ c ∈ cs, PlainCall cfg c) →
      Inv (run cfg e cs) ∧ OpenCapped cfg.max_queue_size (run cfg e cs) := by
  induction cs with
  | nil => intro e hi ho _; exact ⟨hi, ho⟩
  | cons c cs ih =>
    intro e hi ho hok
    have hp := hok c (List.mem_cons_self _ _)
    have hcok := plain_ok hp
    simp only [run]
    cases hx : exec cfg e c with
    | none => exact ⟨hi, ho⟩
    | some r =>
      refine ih _ (inv_exec hc hi hcok (plain_fits hp) hx) ?_
        (fun d hd => hok d (List.mem_cons_of_mem _ hd))
      cases c with
      | put f k it =>
        simp only [exec, Option.some.injEq] at hx
        subst hx
        exact oc_put hc it hi ho hcok.1 hcok.2
      | get f k =>
        simp only [exec, Option.some.injEq] at hx
        subst hx
        exact oc_get ho
      | del f k => exact absurd hp (by simp [PlainCall])

theorem put_ret_absent {cfg : Settings} (hc : 0 < cfg.max_queue_size) {e : Env} {name : Key}
    {it : item} (hk : NoNul name)
    (hq : tget name e.store.qlist = none) (hf : tget name e.store.files = none) :
    (bdb_put cfg no_faults e name it).1 = 0 := by
  have hc0 : ¬ cfg.max_queue_size = 0 := Int.ne_of_gt hc
  have hc1 : ¬ (cfg.max_queue_size < 1) := by omega
  by_cases hp2 : cfg.re_len < it.length
  · simp [bdb_put, get_queue_db_handle, DB_get, no_faults, hq, create_queue_db, DB_open,
      cstr_of_noNul hk, hf, DB_put, DB_append, tget, tget_tput_same, hp2, DB_NOTFOUND, hc0, hc1,
      update_queue_length]
  · simp [bdb_put, get_queue_db_handle, DB_get, no_faults, hq, create_queue_db, DB_open,
      cstr_of_noNul hk, hf, DB_put, DB_append, tget, tget_tput_same, hp2, DB_NOTFOUND, hc0, hc1,
      update_queue_length]

theorem put_ret_present {cfg : Settings} {e : Env} {name : Key}
    {it : item} {h : Nat} {sz : Int} {file : Key} {recs : List item}
    (hq : tget name e.store.qlist = some ⟨some h, sz⟩) (hh : tget h e.handles = some file)
    (hf : tget file e.store.files = some recs) :
    (bdb_put cfg no_faults e name it).1 =
      if cfg.max_queue_size ≠ 0 ∧ sz + 1 > cfg.max_queue_size then -1 else 0 := by
  have happ : DB_append cfg 0 e h it =
      (0, { e with store := { e.store with
              files := appended_files cfg it file recs e.store.files } }) :=
    DB_append_ok rfl hh hf
  by_cases c1 : cfg.max_queue_size ≠ 0 ∧ sz + 1 > cfg.max_queue_size
  · rw [if_pos c1]
    simp [bdb_put, get_queue_db_handle, DB_get, no_faults, hq, c1.1, c1.2]
  · rw [if_neg c1]
    by_cases c0 : cfg.max_queue_size = 0
    · simp [bdb_put, get_queue_db_handle, DB_get, no_faults, hq, c0, happ]
    · have c2 : ¬ (cfg.max_queue_size < sz + 1) := fun h2 => c1 ⟨c0, h2⟩
      simp [bdb_put, get_queue_db_handle, DB_get, no_faults, hq, c0, c2, happ,
        update_queue_length, DB_put]

theorem put_ret_live {cfg : Settings} (hc : 0 < cfg.max_queue_size) {e : Env} (hi : Inv e)
    (ho : OpenCapped cfg.max_queue_size e) {name : Key} (hk : NoNul name) {it : item} :
    (bdb_put cfg no_faults e name it).1 =
      if (live e name : Int) = cfg.max_queue_size then -1 else 0 := by
  cases hq : tget name e.store.qlist with
  | none =>
    have hf : tget name e.store.files = none := by
      by_contra hne
      exact hi.2 name hne hq
    rw [put_ret_absent hc hk hq hf]
    simp only [live, hf, Option.getD_none, List.length_nil]
    have : ¬ ((0 : Nat) : Int) = cfg.max_queue_size := by
      intro h
      rw [← h] at hc
      exact absurd hc (by simp)
    rw [if_neg this]
  | some qr =>
    have hm := mem_of_tget hq
    obtain ⟨_, ⟨h, b1, _, b3⟩, recs, c1, c2⟩ := hi.1 _ hm
    obtain ⟨file, hfile⟩ := ho.1 _ hm h b1
    have hle := ho.2 _ hm
    have := b3 file hfile
    subst this
    obtain ⟨d, sz⟩ := qr
    simp only at b1 c1 c2 hle hfile
    subst b1
    rw [put_ret_present hq hfile c1]
    simp only [live, c1, Option.getD_some]
    rw [← c2]
    by_cases hsz : sz = cfg.max_queue_size
    · have : cfg.max_queue_size ≠ 0 ∧ sz + 1 > cfg.max_queue_size :=
        ⟨Int.ne_of_gt hc, by omega⟩
      rw [if_pos this, if_pos hsz]
    · have : ¬ (cfg.max_queue_size ≠ 0 ∧ sz + 1 > cfg.max_queue_size) := by
        intro h
        have := h.2
        omega
      rw [if_neg this, if_neg hsz]


/-- Cap enforcement for items that fit a record: with a cap `c > 0`, after
every sequence of fault-free `bdb_put` and `bdb_get` calls from a fresh
environment (NUL-free names, every item put at most `re_len` long), a
fault-free `bdb_put` returns -1 exactly when the queue file of that name holds
`c` live records and 0 exactly when it does not. -/
theorem cap_enforcement_fitting (cfg : Settings) (hc : 0 < cfg.max_queue_size)
    (cs : List Call) (hcs : ∀ c ∈ cs, PlainCall cfg c) (name : Key) (hk : NoNul name)
    (it : item) :
    ((bdb_put cfg no_faults (run cfg fresh cs) name it).1 = -1 ↔
      (live (run cfg fresh cs) name : Int) = cfg.max_queue_size) ∧
    ((bdb_put cfg no_faults (run cfg fresh cs) name it).1 = 0 ↔
      (live (run cfg fresh cs) name : Int) ≠ cfg.max_queue_size) := by
  obtain ⟨hi, ho⟩ := oc_run (Int.ne_of_gt hc) cs fresh inv_fresh (oc_fresh _) hcs
  have hret : (bdb_put cfg no_faults (run cfg fresh cs) name it).1 =
      if (live (run cfg fresh cs) name : Int) = cfg.max_queue_size then -1 else 0 :=
    put_ret_live hc hi ho hk
  refine ⟨?_, ?_⟩
  · rw [hret]
    by_cases h : (live (run cfg fresh cs) name : Int) = cfg.max_queue_size
    · simp [h]
    · simp [h]
  · rw [hret]
    by_cases h : (live (run cfg fresh cs) name : Int) = cfg.max_queue_size
    · simp [h]
    · simp [h]

/-! ## Enumeration -/

theorem toDigitsCore_length_ge (b : Nat) : ∀ (fuel n : Nat) (ds : List Char),
    ds.length ≤ (Nat.toDigitsCore b fuel n ds).length := by
  intro fuel
  induction fuel with
  | zero => intro n ds; simp [Nat.toDigitsCore]
  | succ fuel ih =>
    intro n ds
    simp only [Nat.toDigitsCore]
    split
    · simp
    · exact Nat.le_trans (by simp) (ih _ _)

theorem toDigits_length_pos (b n : Nat) : 1 ≤ (Nat.toDigits b n).length := by
  simp only [Nat.toDigits, Nat.toDigitsCore]
  split
  · simp
  · exact Nat.le_trans (by simp) (toDigitsCore_length_ge b _ _ _)

theorem dec_length_pos (v : Int) : 1 ≤ (dec v).length := by
  unfold dec
  split
  · simp
  · exact toDigits_length_pos _ _

theorem fmt_d_length_pos (v : Int) : 1 ≤ (fmt_d v).length :=
  dec_length_pos _

theorem to_int_of_range {v : Int} (h0 : -2 ^ 31 ≤ v) (h1 : v < 2 ^ 31) : to_int v = v := by
  unfold to_int
  have a : (0 : Int) ≤ v + 2 ^ 31 := by omega
  have b : v + 2 ^ 31 < 2 ^ 32 := by omega
  rw [Int.emod_eq_of_lt a b]
  omega

theorem fmt_d_of_range {v : Int} (h0 : -2 ^ 31 ≤ v) (h1 : v < 2 ^ 31) : fmt_d v = dec v := by
  unfold fmt_d
  rw [to_int_of_range h0 h1]

theorem cstr_cons {c : Char} (hc : c ≠ NUL) (s : List Char) : cstr (c :: s) = c :: cstr s := by
  have h : (c != NUL) = true := by simp [hc]
  simp only [cstr, List.takeWhile, h]

theorem cstr_key_nul : ∀ (k buf : List Char), NoNul k → k.length < buf.length →
    cstr ((cursor_key buf k).set k.length NUL) = k := by
  intro k
  induction k with
  | nil =>
    intro buf _ hl
    cases buf with
    | nil => simp at hl
    | cons x xs => simp [cursor_key, cstr, List.takeWhile]
  | cons c k ih =>
    intro buf hn hl
    cases buf with
    | nil => simp at hl
    | cons x xs =>
      have hc : c ≠ NUL := fun h => hn (by rw [← h]; exact List.mem_cons_self _ _)
      have hk : NoNul k := fun h => hn (List.mem_cons_of_mem _ h)
      have hl2 : k.length < xs.length := by simpa using hl
      have := ih xs hk hl2
      simp only [cursor_key, List.length_cons, List.cons_append, List.drop_succ_cons,
        List.set_cons_succ] at this ⊢
      rw [cstr_cons hc, this]

theorem cursor_key_set_length (k buf : List Char) (hl : k.length ≤ buf.length) :
    ((cursor_key buf k).set k.length NUL).length = buf.length := by
  simp [cursor_key]
  omega

theorem to_size_t_of_nonneg {x : Int} (h0 : 0 ≤ x) (h1 : x < 2 ^ 64) :
    (to_size_t x : Int) = x := by
  unfold to_size_t
  rw [Int.emod_eq_of_lt h0 h1]
  exact Int.toNat_of_nonneg h0

theorem print_loop_all : ∀ (ql : List (Key × queue_rec_t)) (buf : List Char) (remains : Int)
    (out : List Char),
    (∀ p ∈ ql, NoNul p.1 ∧ p.1.length ≤ 511 ∧
      -2 ^ 31 ≤ p.2.queue_size ∧ p.2.queue_size < 2 ^ 31) →
    buf.length = 512 →
    ((spec_lines ql).length : Int) ≤ remains → remains < 2 ^ 31 →
    print_loop no_faults ql buf remains out = (DB_NOTFOUND, out ++ spec_lines ql) := by
  intro ql
  induction ql with
  | nil => intro buf remains out _ _ _ _; simp [print_loop, spec_lines, no_faults]
  | cons p t ih =>
    intro buf remains out hn hb hr hmax
    obtain ⟨k, r⟩ := p
    obtain ⟨hk, hkl, hlo, hhi⟩ := hn (k, r) (List.mem_cons_self _ _)
    simp only at hk hkl hlo hhi
    have hkl2 : ¬ 512 < k.length := by omega
    have hcs : cstr ((cursor_key buf k).set k.length NUL) = k :=
      cstr_key_nul k buf hk (by omega)
    have hline : stat_line ((cursor_key buf k).set k.length NUL) r.queue_size =
        "STAT ".toList ++ k ++ [' '] ++ dec r.queue_size ++ [CR, LF] := by
      simp only [stat_line, hcs, fmt_d_of_range hlo hhi]
    have hd := dec_length_pos r.queue_size
    have hlen : ("STAT ".toList ++ k ++ [' '] ++ dec r.queue_size ++ [CR, LF]).length =
        k.length + 8 + (dec r.queue_size).length := by
      simp only [List.length_append, List.length_cons, List.length_nil, String.toList]
      have : "STAT ".data.length = 5 := by decide
      omega
    have hsp : (spec_lines ((k, r) :: t)).length =
        (k.length + 8 + (dec r.queue_size).length) + (spec_lines t).length := by
      simp only [spec_lines, List.length_append]
      rw [← hlen]
      simp only [List.length_append]
    rw [hsp] at hr
    have hr0 : 0 ≤ remains := by omega
    have hts := to_size_t_of_nonneg hr0 (by omega)
    have hcheck : to_size_t remains > k.length + 8 := by
      have : ((k.length + 8 : Nat) : Int) < (to_size_t remains : Int) := by
        rw [hts]; push_cast; omega
      exact_mod_cast this
    rw [print_loop]
    simp only [no_faults, ne_eq, not_true_eq_false, if_false, hkl2]
    rw [hcs, if_pos hcheck, hline]
    rw [ih _ _ _ (fun q hq => hn q (List.mem_cons_of_mem _ hq))
      (by rw [cursor_key_set_length k buf (by omega)]; exact hb)
      (by rw [hlen]; push_cast; omega) (by omega)]
    simp [spec_lines]

/-! ## Environment set-up -/

theorem bdb_env_init_caps (s : EnvSettings) (f : EnvFaults) (created envp : DB_ENV)
    (h : bdb_env_init s f created = some envp) :
    envp.lk_max_lockers = 20000 ∧ envp.lk_max_locks = 20000 ∧
      envp.lk_max_objects = 20000 ∧ envp.tx_max = 10000 := by
  unfold bdb_env_init at h
  split_ifs at h <;> simp at h <;> subst h <;> simp

theorem bdb_env_init_returns (s : EnvSettings) (created : DB_ENV) :
    (bdb_env_init s env_no_faults created).isSome = true := by
  unfold bdb_env_init
  simp [env_no_faults]
  split_ifs <;> simp

/-! ## Length maintenance -/

theorem put_qlist_shape (cfg : Settings) (f : Faults) (e : Env) (key : Key) (it : item)
    (hn : f Step.lookup_get ≠ DB_NOTFOUND) :
    ((bdb_put cfg f e key it).1 = -1 ∧ (bdb_put cfg f e key it).2.store.qlist = e.store.qlist) ∨
    ((bdb_put cfg f e key it).1 = 0 ∧
      ∃ h sz, tget key e.store.qlist = some ⟨some h, sz⟩ ∧
        (bdb_put cfg f e key it).2.store.qlist =
          if cfg.max_queue_size = 0 then e.store.qlist
          else tput key ⟨some h, sz + 1⟩ e.store.qlist) ∨
    ((bdb_put cfg f e key it).1 = 0 ∧
      (tget key e.store.qlist = none ∨ ∃ sz, tget key e.store.qlist = some ⟨none, sz⟩) ∧
        (bdb_put cfg f e key it).2.store.qlist =
          if cfg.max_queue_size = 0 then tput key ⟨some e.next, 0⟩ e.store.qlist
          else tput key ⟨some e.next, 1⟩ (tput key ⟨some e.next, 0⟩ e.store.qlist)) := by
  rcases bdb_put_cases cfg f e key it with ⟨h1, h2, _⟩ |
    ⟨qr, dbp, e1, file, recs, _, hg, hor, _, _, _, h2⟩
  · exact Or.inl ⟨h1, by rw [h2]⟩
  · right
    obtain ⟨_, hcase⟩ := gqh_ok_cases hn hg
    rcases hor with ⟨hd, rfl⟩ | ⟨hd, rfl, rfl⟩
    · left
      rcases hcase with hq | ⟨_, hz⟩
      swap
      · rw [hz] at hd; simp at hd
      obtain ⟨d, sz⟩ := qr
      simp only at hd
      subst hd
      rcases h2 with ⟨c0, h2⟩ | ⟨c0, r, hr, h2⟩
      · rw [h2]
        exact ⟨rfl, dbp, sz, hq, by rw [if_pos c0]⟩
      · rw [h2]
        rw [hq] at hr
        simp only [Option.some.injEq] at hr
        subst hr
        exact ⟨rfl, dbp, sz, hq, by rw [if_neg c0]⟩
    · right
      have habs : tget key e.store.qlist = none ∨
          ∃ sz, tget key e.store.qlist = some ⟨none, sz⟩ := by
        rcases hcase with hq | ⟨hq, _⟩
        · obtain ⟨d, sz⟩ := qr
          simp only at hd
          subst hd
          exact Or.inr ⟨sz, hq⟩
        · exact Or.inl hq
      have hq1 : tget key (created_env e key).store.qlist = some ⟨some e.next, 0⟩ := by
        simp only [created_env]; exact tget_tput_same _ _ _
      rcases h2 with ⟨c0, h2⟩ | ⟨c0, r, hr, h2⟩
      · rw [h2]
        exact ⟨rfl, habs, by rw [if_pos c0]; rfl⟩
      · rw [h2]
        rw [hq1] at hr
        simp only [Option.some.injEq] at hr
        subst hr
        refine ⟨rfl, habs, ?_⟩
        rw [if_neg c0]
        simp [created_env]

theorem put_ret_open {cfg : Settings} (hc : cfg.max_queue_size = 0) {e : Env} {key : Key}
    {it : item} {h : Nat} {sz : Int} {file : Key} {recs : List item}
    (hq : tget key e.store.qlist = some ⟨some h, sz⟩) (hh : tget h e.handles = some file)
    (hf : tget file e.store.files = some recs) :
    (bdb_put cfg no_faults e key it).1 = 0 := by
  rw [put_ret_present hq hh hf]
  simp [hc]

theorem put_ret_new {cfg : Settings} (hc : cfg.max_queue_size = 0) {e : Env} {key : Key}
    {it : item} (hq : tget key e.store.qlist = none) :
    (bdb_put cfg no_faults e key it).1 = 0 := by
  by_cases hp2 : cfg.re_len < it.length <;>
  cases hf : tget (cstr key) e.store.files <;>
  simp [bdb_put, get_queue_db_handle, DB_get, no_faults, hq, create_queue_db, DB_open,
    hf, DB_put, DB_append, tget, tget_tput_same, hp2, DB_NOTFOUND, hc]

/-! ## No NULL handle in the catalog -/

theorem noNull_fresh : NoNullHandles fresh := by
  intro p hp; simp [fresh] at hp

theorem noNull_tput {ql : List (Key × queue_rec_t)} (h : ∀ p ∈ ql, p.2.queue_dbp ≠ none)
    (k : Key) (d : Nat) (sz : Int) : ∀ p ∈ tput k ⟨some d, sz⟩ ql, p.2.queue_dbp ≠ none := by
  intro p hp
  rw [mem_tput] at hp
  rcases hp with hp | ⟨hp, _⟩
  · subst hp; simp
  · exact h p hp

theorem noNull_put {cfg : Settings} {f : Faults} {e : Env} {key : Key} (it : item)
    (hs : NoNullHandles e) (hn : f Step.lookup_get ≠ DB_NOTFOUND) :
    NoNullHandles (bdb_put cfg f e key it).2 := by
  unfold NoNullHandles at hs ⊢
  rcases put_qlist_shape cfg f e key it hn with ⟨_, h⟩ | ⟨_, d, sz, _, h⟩ | ⟨_, _, h⟩
  · rw [h]; exact hs
  · rw [h]
    split
    · exact hs
    · exact noNull_tput hs _ _ _
  · rw [h]
    split
    · exact noNull_tput hs _ _ _
    · exact noNull_tput (noNull_tput hs _ _ _) _ _ _

theorem noNull_get {cfg : Settings} {f : Faults} {e : Env} {key : Key}
    (hs : NoNullHandles e) : NoNullHandles (bdb_get cfg f e key).2 := by
  unfold NoNullHandles at hs ⊢
  rcases bdb_get_cases cfg f e key with h | ⟨d, sz, _, _, _, _, _, _, _, _, _, _, _, h⟩
  · rw [h]; exact hs
  · rcases h with ⟨_, h⟩ | ⟨_, _, _, h⟩
    · rw [h]; exact hs
    · rw [h]; exact noNull_tput hs _ _ _

theorem noNull_del {f : Faults} {e : Env} {key : Key} (hs : NoNullHandles e)
    {r : Int × Env} (hr : delete_queue_db f e key = some r) : NoNullHandles r.2 := by
  unfold NoNullHandles at hs ⊢
  rcases delete_queue_db_cases f e key with ⟨h1, _⟩ | ⟨e1, h1, h2, _⟩ |
    ⟨h, sz, file, recs, _, _, _, _, _, _, _, _, _, _, h2⟩
  · rw [h1] at hr; exact absurd hr (by simp)
  · rw [h1] at hr
    simp only [Option.some.injEq] at hr
    subst hr
    simp only
    rw [h2]; exact hs
  · rw [h2] at hr
    simp only [Option.some.injEq] at hr
    subst hr
    intro p hp
    simp only at hp
    rw [mem_tdel] at hp
    exact hs p hp.1

theorem noNull_exec {cfg : Settings} {e : Env} (hs : NoNullHandles e) {c : Call}
    (hn : c.faults Step.lookup_get ≠ DB_NOTFOUND) {r : Out × Env}
    (hr : exec cfg e c = some r) : NoNullHandles r.2 := by
  cases c with
  | put f k it =>
    simp only [exec, Option.some.injEq] at hr
    subst hr
    exact noNull_put it hs hn
  | get f k =>
    simp only [exec, Option.some.injEq] at hr
    subst hr
    exact noNull_get hs
  | del f k =>
    simp only [exec] at hr
    cases hd : delete_queue_db f e k with
    | none => rw [hd] at hr; exact absurd hr (by simp)
    | some d =>
      rw [hd] at hr
      simp only [Option.some.injEq] at hr
      subst hr
      exact noNull_del hs hd

theorem noNull_run {cfg : Settings} (cs : List Call) :
    ∀ e, NoNullHandles e → (∀ c ∈ cs, c.faults Step.lookup_get ≠ DB_NOTFOUND) →
      NoNullHandles (run cfg e cs) := by
  induction cs with
  | nil => intro e hs _; exact hs
  | cons c cs ih =>
    intro e hs hok
    simp only [run]
    cases hx : exec cfg e c with
    | none => exact hs
    | some r =>
      exact ih _ (noNull_exec hs (hok c (List.mem_cons_self _ _)) hx)
        (fun d hd => hok d (List.mem_cons_of_mem _ hd))

/-! ## The reopen stores no NULL handle -/

theorem DB_open_qlist (r : Int) (e : Env) (d : Nat) (file : Key) :
    (DB_open r e d file).2.store.qlist = e.store.qlist := by
  unfold DB_open
  split <;> rfl

theorem DB_close_qlist (e : Env) (d : Nat) : (DB_close e d).store.qlist = e.store.qlist := rfl

theorem open_exsited_ok (cfg : Settings) (f : Faults) (name : List Char) :
    ∀ (rets : List Int) (e : Env),
      (open_exsited_queue_db cfg f rets e name).2.1.store.qlist = e.store.qlist ∧
      ((open_exsited_queue_db cfg f rets e name).1 = 0 →
        (open_exsited_queue_db cfg f rets e name).2.2 ≠ none) := by
  intro rets
  induction rets with
  | nil =>
    intro e
    unfold open_exsited_queue_db
    split
    · next c => exact ⟨rfl, fun h => absurd h c⟩
    · simp only
      split
      · next c => exact ⟨rfl, fun h => absurd h c.2⟩
      · split
        · next c => exact ⟨rfl, fun h => absurd h c⟩
        · split
          · next c => exact ⟨rfl, fun h => absurd h c⟩
          · exact ⟨by rw [DB_open_qlist], fun _ => by simp⟩
  | cons r rs ih =>
    intro e
    unfold open_exsited_queue_db
    split
    · next c => exact ⟨rfl, fun h => absurd h c⟩
    · simp only
      split
      · next c => exact ⟨rfl, fun h => absurd h c.2⟩
      · split
        · next c => exact ⟨rfl, fun h => absurd h c⟩
        · split
          · next c => exact ⟨rfl, fun h => absurd h c⟩
          · obtain ⟨ret, e2, ho⟩ : ∃ ret e2, DB_open r { e with next := e.next + 1 } e.next
                (cstr name) = (ret, e2) := ⟨_, _, rfl⟩
            have hq : e2.store.qlist = e.store.qlist := by
              have := DB_open_qlist r { e with next := e.next + 1 } e.next (cstr name)
              rw [ho] at this
              exact this
            rw [ho]
            simp only
            split
            · exact ⟨hq, fun _ => by simp⟩
            · split
              · have := ih (DB_close e2 e.next)
                exact ⟨by rw [this.1, DB_close_qlist]; exact hq, this.2⟩
              · next c _ => exact ⟨hq, fun h => absurd h c⟩

theorem reopen_loop_noNull (cfg : Settings) (f : Faults) (rets : List Int) :
    ∀ (es : List (Key × queue_rec_t)) (buf : List Char) (e : Env),
      NoNullHandles e → NoNullHandles (reopen_loop cfg f rets es buf e).2 := by
  intro es
  induction es with
  | nil => intro buf e hs; exact hs
  | cons kv rest ih =>
    intro buf e hs
    obtain ⟨k, v⟩ := kv
    simp only [reopen_loop]
    split
    · exact hs
    · split
      · exact hs
      · obtain ⟨ret, e1, dbp, ho⟩ : ∃ ret e1 dbp,
            open_exsited_queue_db cfg f rets e (cursor_key buf k) = (ret, e1, dbp) :=
          ⟨_, _, _, rfl⟩
        rw [ho]
        simp only
        have hok := open_exsited_ok cfg f (cursor_key buf k) rets e
        rw [ho] at hok
        simp only at hok
        have hs1 : ∀ p ∈ e1.store.qlist, p.2.queue_dbp ≠ none := by
          rw [hok.1]; exact hs
        by_cases hr : ret = 0
        · subst hr
          rw [if_neg (by simp)]
          unfold DB_put
          split
          · exact hs1
          · simp only
            rw [if_neg (by simp)]
            apply ih
            obtain ⟨d, hd⟩ := Option.ne_none_iff_exists.1 (hok.2 rfl)
            rw [← hd]
            exact noNull_tput hs1 k d 0
        · rw [if_pos hr]
          exact hs1

theorem noNull_reopen {cfg : Settings} {f : Faults} {qr rs : List Int} {e e1 : Env}
    (hs : NoNullHandles e) (h : bdb_qlist_db_open cfg f qr rs (restart e) = some e1) :
    NoNullHandles e1 := by
  unfold bdb_qlist_db_open at h
  split at h
  · exact absurd h (by simp)
  · split at h
    · exact absurd h (by simp)
    · split at h
      · exact absurd h (by simp)
      · have := reopen_loop_noNull cfg f rs (restart e).store.qlist (List.replicate 512 NUL)
          (restart e) hs
        revert h this
        generalize reopen_loop cfg f rs (restart e).store.qlist (List.replicate 512 NUL)
          (restart e) = r
        intro h this
        obtain ⟨ret, e2⟩ := r
        simp only at h
        split at h
        · exact absurd h (by simp)
        · split at h
          · exact absurd h (by simp)
          · simp only [Option.some.injEq] at h
            subst h
            exact this

/-! ## Every open handle is the one its queue's entry stores -/

theorem mem_txn_abort {e0 e : Env} {p : Nat × Key} (h : p ∈ (txn_abort e0 e).handles) :
    p ∈ e0.handles := by
  simp only [txn_abort, List.mem_filter, decide_eq_true_eq] at h
  exact h.2

theorem bdb_put_form (cfg : Settings) (f : Faults) (e : Env) (key : Key) (it : item) :
    bdb_put cfg f e key it = (-1, e) ∨ (∃ x, bdb_put cfg f e key it = (-1, txn_abort e x)) ∨
      ∃ qr e1 d, bdb_put cfg f e key it = put_tail cfg f e key it qr e1 d := by
  rw [bdb_put_eq]
  split
  · exact Or.inl rfl
  · split
    split
    · exact Or.inr (Or.inl ⟨_, rfl⟩)
    · split
      · exact Or.inr (Or.inl ⟨_, rfl⟩)
      · split
        · exact Or.inr (Or.inl ⟨_, rfl⟩)
        · exact Or.inr (Or.inr ⟨_, _, _, rfl⟩)

theorem bdb_put_fail_handles (cfg : Settings) (f : Faults) (e : Env) (key : Key) (it : item) :
    (bdb_put cfg f e key it).1 = 0 ∨
      ∀ p ∈ (bdb_put cfg f e key it).2.handles, p ∈ e.handles := by
  rcases bdb_put_form cfg f e key it with h | ⟨x, h⟩ | ⟨qr, e1, d, h⟩
  · right; rw [h]; exact fun p hp => hp
  · right; rw [h]; exact fun p hp => mem_txn_abort hp
  · rw [h]
    rcases put_tail_cases cfg f e key it qr e1 d with h1 | ⟨_, _, _, _, _, _, _, h1⟩
    · right; rw [h1]; exact fun p hp => mem_txn_abort hp
    · left
      rcases h1 with ⟨_, h1⟩ | ⟨_, _, _, _, _, h1⟩ <;> rw [h1]

theorem delete_handles (f : Faults) (e : Env) (name : Key) (r : Int × Env)
    (h : delete_queue_db f e name = some r) : ∀ p ∈ r.2.handles, p ∈ e.handles := by
  have hclose : ∀ d, ∀ p ∈ (DB_close e d).handles, p ∈ e.handles := by
    intro d p hp
    simp only [DB_close] at hp
    exact (mem_tdel.1 hp).1
  unfold delete_queue_db at h
  split at h
  · simp only [Option.some.injEq] at h; subst h; exact fun p hp => hp
  · split at h
    split at h
    · simp only [Option.some.injEq] at h; subst h; exact fun p hp => mem_txn_abort hp
    · split at h
      · simp only [Option.some.injEq] at h; subst h; exact fun p hp => mem_txn_abort hp
      · simp only at h
        split at h
        · simp only [Option.some.injEq] at h; subst h; exact fun p hp => mem_txn_abort hp
        · split at h
          · exact absurd h (by simp)
          · next ret e2 hrem =>
            have he2 : ∀ p ∈ e2.handles, p ∈ e.handles := by
              unfold DB_ENV_dbremove at hrem
              split at hrem
              · simp only [Option.some.injEq, Prod.mk.injEq] at hrem
                rw [← hrem.2]; exact hclose _
              · split at hrem
                · simp only [Option.some.injEq, Prod.mk.injEq] at hrem
                  rw [← hrem.2]; exact hclose _
                · split at hrem
                  · exact absurd hrem (by simp)
                  · simp only [Option.some.injEq, Prod.mk.injEq] at hrem
                    rw [← hrem.2]; exact hclose _
            split at h
            · simp only [Option.some.injEq] at h; subst h; exact fun p hp => mem_txn_abort hp
            · split at h
              · simp only [Option.some.injEq] at h; subst h
                exact fun p hp => mem_txn_abort hp
              · split at h
                · simp only [Option.some.injEq] at h; subst h
                  exact fun p hp => mem_txn_abort hp
                · simp only [Option.some.injEq] at h; subst h
                  exact he2

theorem owned_fresh : HandlesOwned fresh := by
  intro p hp; simp [fresh] at hp

theorem owned_of_sub {e e1 : Env} (ho : HandlesOwned e) (hs : e1.store.qlist = e.store.qlist)
    (hh : ∀ p ∈ e1.handles, p ∈ e.handles) : HandlesOwned e1 := by
  intro p hp
  rw [hs]
  exact ho p (hh p hp)

theorem owned_update {e : Env} (ho : HandlesOwned e) {key : Key} {r : queue_rec_t}
    (hq : tget key e.store.qlist = some r) (d : Int) (fs : List (Key × List item)) :
    HandlesOwned { e with store := { qlist := tput key ⟨r.queue_dbp, r.queue_size + d⟩
                                                 e.store.qlist,
                                     files := fs } } := by
  intro p hp
  obtain ⟨sz, h⟩ := ho p hp
  by_cases hk : p.2 = key
  · rw [hk] at h ⊢
    rw [hq] at h
    simp only [Option.some.injEq] at h
    subst h
    exact ⟨sz + d, tget_tput_same _ _ _⟩
  · exact ⟨sz, by simp only; rw [tget_tput_ne hk]; exact h⟩

theorem owned_created {e : Env} (ho : HandlesOwned e) {key : Key} (hk : NoNul key)
    (hq : ∀ h sz, tget key e.store.qlist ≠ some ⟨some h, sz⟩) :
    HandlesOwned (created_env e key) := by
  intro p hp
  simp only [created_env, List.mem_cons] at hp ⊢
  rcases hp with hp | hp
  · subst hp
    simp only
    rw [cstr_of_noNul hk]
    exact ⟨0, tget_tput_same _ _ _⟩
  · obtain ⟨sz, h⟩ := ho p hp
    have hne : p.2 ≠ key := by
      intro hpk
      rw [hpk] at h
      exact hq _ _ h
    exact ⟨sz, by rw [tget_tput_ne hne]; exact h⟩

theorem owned_put {cfg : Settings} {f : Faults} {e : Env} {key : Key} (it : item)
    (ho : HandlesOwned e) (hk : NoNul key) (hn : f Step.lookup_get ≠ DB_NOTFOUND) :
    HandlesOwned (bdb_put cfg f e key it).2 := by
  rcases bdb_put_cases cfg f e key it with ⟨h1, h2, _⟩ |
    ⟨qr, dbp, e1, file, recs, _, hg, hor, _, _, _, h2⟩
  · rcases bdb_put_fail_handles cfg f e key it with h0 | hsub
    · rw [h1] at h0; exact absurd h0 (by decide)
    · exact owned_of_sub ho (by rw [h2]) hsub
  · have ho1 : HandlesOwned e1 := by
      rcases hor with ⟨_, he⟩ | ⟨hd, _, he⟩
      · rw [he]; exact ho
      · rw [he]
        apply owned_created ho hk
        intro h sz hq
        rcases (gqh_ok_cases hn hg).2 with hq1 | ⟨hq1, _⟩
        · rw [hq] at hq1
          simp only [Option.some.injEq] at hq1
          rw [← hq1] at hd
          exact absurd hd (by simp)
        · rw [hq] at hq1
          exact absurd hq1 (by simp)
    rcases h2 with ⟨_, h2⟩ | ⟨_, r, hr, h2⟩
    · rw [h2]
      exact owned_of_sub ho1 rfl (fun p hp => hp)
    · rw [h2]
      exact owned_update ho1 hr 1 _

theorem owned_get {cfg : Settings} {f : Faults} {e : Env} {key : Key}
    (ho : HandlesOwned e) : HandlesOwned (bdb_get cfg f e key).2 := by
  rcases bdb_get_cases cfg f e key with h | ⟨d, sz, _, _, _, _, _, _, _, _, hq, _, _, h⟩
  · rw [h]; exact ho
  · rcases h with ⟨_, h⟩ | ⟨_, _, _, h⟩
    · rw [h]
      exact owned_of_sub ho rfl (fun p hp => hp)
    · rw [h]
      exact owned_update ho hq (-1) _

theorem owned_del {f : Faults} {e : Env} {key : Key} (ho : HandlesOwned e)
    {r : Int × Env} (hr : delete_queue_db f e key = some r) : HandlesOwned r.2 := by
  rcases delete_queue_db_cases f e key with ⟨h1, _⟩ | ⟨e1, h1, h2, _⟩ |
    ⟨h, sz, file, recs, _, _, _, _, _, _, hq, _, _, _, h2⟩
  · rw [h1] at hr; exact absurd hr (by simp)
  · have hsub := delete_handles f e key r hr
    rw [h1] at hr
    simp only [Option.some.injEq] at hr
    subst hr
    exact owned_of_sub ho (by simp only; rw [h2]) hsub
  · rw [h2] at hr
    simp only [Option.some.injEq] at hr
    subst hr
    intro p hp
    simp only at hp ⊢
    obtain ⟨hp1, hp2⟩ := mem_tdel.1 hp
    obtain ⟨sz1, h1⟩ := ho p hp1
    have hne : p.2 ≠ key := by
      intro hpk
      rw [hpk, hq] at h1
      simp only [Option.some.injEq, queue_rec_t.mk.injEq] at h1
      exact hp2 h1.1.symm
    exact ⟨sz1, by rw [tget_tdel_ne hne]; exact h1⟩

theorem owned_exec {cfg : Settings} {e : Env} (ho : HandlesOwned e) {c : Call}
    (hc : CallOk c) {r : Out × Env} (hr : exec cfg e c = some r) : HandlesOwned r.2 := by
  cases c with
  | put f k it =>
    simp only [exec, Option.some.injEq] at hr
    subst hr
    exact owned_put it ho hc.1 hc.2
  | get f k =>
    simp only [exec, Option.some.injEq] at hr
    subst hr
    exact owned_get ho
  | del f k =>
    simp only [exec] at hr
    cases hd : delete_queue_db f e k with
    | none => rw [hd] at hr; exact absurd hr (by simp)
    | some d =>
      rw [hd] at hr
      simp only [Option.some.injEq] at hr
      subst hr
      exact owned_del ho hd

theorem owned_run {cfg : Settings} (cs : List Call) :
    ∀ e, HandlesOwned e → (∀ c ∈ cs, CallOk c) → HandlesOwned (run cfg e cs) := by
  induction cs with
  | nil => intro e ho _; exact ho
  | cons c cs ih =>
    intro e ho hok
    simp only [run]
    cases hx : exec cfg e c with
    | none => exact ho
    | some r =>
      exact ih _ (owned_exec ho (hok c (List.mem_cons_self _ _)) hx)
        (fun d hd => hok d (List.mem_cons_of_mem _ hd))

/-- In every state reached from the fresh environment by `bdb_put`, `bdb_get`
and `delete_queue_db` calls under any faults (NUL-free names; not-found
reported by the catalog lookup only for absent keys), no handle other than
the one stored in a queue's entry is open on the queue's file. -/
theorem no_other_handle_reached (cfg : Settings) (cs : List Call) (hok : ∀ c ∈ cs, CallOk c)
    (name : Key) (hk : NoNul name) (h : Nat) (sz : Int)
    (hq : tget name (run cfg fresh cs).store.qlist = some ⟨some h, sz⟩) :
    ∀ p ∈ tdel h (run cfg fresh cs).handles, p.2 ≠ cstr name := by
  intro p hp hpk
  obtain ⟨hp1, hp2⟩ := mem_tdel.1 hp
  obtain ⟨sz1, h1⟩ := owned_run cs fresh owned_fresh hok p hp1
  rw [hpk, cstr_of_noNul hk, hq] at h1
  simp only [Option.some.injEq, queue_rec_t.mk.injEq] at h1
  exact hp2 h1.1.symm

/-! ## The claims -/

set_option maxRecDepth 20000

/-- C1: FIFO order. With no cap configured and no fault forced, for every queue
name and every list of items that each fit a record, the `bdb_put` calls on a
fresh environment all return 0, and `n + 1` calls of `bdb_get` then return the
items in the order they were put, followed by `NULL`. -/
theorem C1_fifo_order (cfg : Settings) (hcap : cfg.max_queue_size = 0) (name : Key)
    (ps : List item) (hlen : ∀ p ∈ ps, p.length ≤ cfg.re_len) :
    (put_all cfg no_faults name fresh ps).1 = List.replicate ps.length 0 ∧
    (get_n cfg no_faults name (put_all cfg no_faults name fresh ps).2 (ps.length + 1)).1 =
      ps.map some ++ [none] := by
  cases ps with
  | nil =>
    refine ⟨rfl, ?_⟩
    have : bdb_get cfg no_faults fresh name = (none, fresh) := by
      simp [bdb_get, no_faults, get_queue_db_handle, DB_get, fresh, tget, DB_NOTFOUND, txn_abort]
    simp [put_all, get_n, this]
  | cons p ps =>
    have hp := put_absent cfg hcap fresh name p (hlen p (List.mem_cons_self _ _)) rfl rfl
    have hall := put_all_holds cfg hcap name ps (fun q hq => hlen q (List.mem_cons_of_mem _ hq))
      _ [p] hp.2
    have hget := get_n_holds cfg hcap name ([p] ++ ps) _ hall.2
    simp only [put_all, List.length_cons, List.replicate_succ]
    refine ⟨by rw [hp.1, hall.1], ?_⟩
    simpa using hget

/-- The FIFO theorem at cap 0, queue `q`, items `A`, `B`, `C`. -/
theorem C1_fifo_order_witness :
    (put_all ⟨0, 1024, 131072⟩ no_faults "q".toList fresh
        ["A".toList, "B".toList, "C".toList]).1 = [0, 0, 0] ∧
    (get_n ⟨0, 1024, 131072⟩ no_faults "q".toList
        (put_all ⟨0, 1024, 131072⟩ no_faults "q".toList fresh
          ["A".toList, "B".toList, "C".toList]).2 4).1 =
      [some "A".toList, some "B".toList, some "C".toList, none] :=
  C1_fifo_order ⟨0, 1024, 131072⟩ rfl "q".toList ["A".toList, "B".toList, "C".toList]
    (by decide)

/-- C2, the code at a failing input: cap 2 and records of 1024 bytes. The calls
put `A`, put of a 1025-byte item, put `C` on `q` return 0, 0, -1: the second
put stores no record but adds 1 to the length, so the third is refused while
the queue file holds one live record and the stored length is 2. -/
theorem C2_oversized_put_fills_cap :
    trace ⟨2, 1024, 131072⟩ fresh
        [Call.put no_faults "q".toList "A".toList,
         Call.put no_faults "q".toList (List.replicate 1025 'x'),
         Call.put no_faults "q".toList "C".toList] =
      [Out.code 0, Out.code 0, Out.code (-1)] ∧
    live (run ⟨2, 1024, 131072⟩ fresh
        [Call.put no_faults "q".toList "A".toList,
         Call.put no_faults "q".toList (List.replicate 1025 'x')]) "q".toList = 1 ∧
    (tget "q".toList (run ⟨2, 1024, 131072⟩ fresh
        [Call.put no_faults "q".toList "A".toList,
         Call.put no_faults "q".toList (List.replicate 1025 'x')]).store.qlist).map
        (fun r => r.queue_size) = some 2 := by
  decide

/-- C3: a failed enqueue is atomic. For every state, cap, fault and call, when
`bdb_put` returns -1 the store after the call is the store before it: the
catalog (entries and lengths) and every queue file are as before, so a queue
that did not exist still does not. -/
theorem C3_failed_put_atomic (cfg : Settings) (f : Faults) (e : Env) (key : Key) (it : item)
    (h : (bdb_put cfg f e key it).1 = -1) :
    (bdb_put cfg f e key it).2.store = e.store ∧
    (∀ n, tget n (bdb_put cfg f e key it).2.store.qlist = tget n e.store.qlist) ∧
    (∀ n, tget n (bdb_put cfg f e key it).2.store.files = tget n e.store.files) := by
  have hs : (bdb_put cfg f e key it).2.store = e.store := by
    rcases bdb_put_cases cfg f e key it with ⟨_, h2, _⟩ |
      ⟨qr, dbp, e1, file, recs, _, _, _, _, _, _, h2⟩
    · exact h2
    · rcases h2 with ⟨_, h2⟩ | ⟨_, r, _, h2⟩ <;> rw [h2] at h <;> simp at h
  exact ⟨hs, fun n => by rw [hs], fun n => by rw [hs]⟩

/-- The atomicity theorem at a first `bdb_put` whose commit fails: the queue
created inside the transaction is gone. -/
theorem C3_failed_put_atomic_witness :
    (bdb_put ⟨2, 1024, 131072⟩ (fun s => if s = Step.txn_commit then 5 else 0) fresh
        "q".toList "A".toList).1 = -1 ∧
    (bdb_put ⟨2, 1024, 131072⟩ (fun s => if s = Step.txn_commit then 5 else 0) fresh
        "q".toList "A".toList).2.store = fresh.store :=
  ⟨by decide,
    (C3_failed_put_atomic ⟨2, 1024, 131072⟩ (fun s => if s = Step.txn_commit then 5 else 0)
      fresh "q".toList "A".toList (by decide)).1⟩

/-- C4: dequeue on an absent or empty queue. For every state, cap, fault and
name: when the catalog has no entry for the name, or the entry's handle is
NULL, or the file behind the handle is missing or holds no record, `bdb_get`
returns `NULL` and leaves the environment as it was; and whatever it returns,
`bdb_get` neither adds nor removes a catalog entry or a queue file. -/
theorem C4_get_absent_or_empty (cfg : Settings) (f : Faults) (e : Env) (name : Key) :
    ((tget name e.store.qlist = none ∨ (∃ sz, tget name e.store.qlist = some ⟨none, sz⟩) ∨
      (∃ h sz file, tget name e.store.qlist = some ⟨some h, sz⟩ ∧
        tget h e.handles = some file ∧
        (tget file e.store.files = none ∨ tget file e.store.files = some []))) →
      bdb_get cfg f e name = (none, e)) ∧
    (∀ n, tget n (bdb_get cfg f e name).2.store.qlist = none ↔ tget n e.store.qlist = none) ∧
    (∀ n, tget n (bdb_get cfg f e name).2.store.files = none ↔ tget n e.store.files = none) := by
  refine ⟨bdb_get_null_of cfg f e name, ?_⟩
  rcases bdb_get_cases cfg f e name with h4 | ⟨h', sz', file', r, rest, _, _, _, _, _, h5, h6, h7, h8⟩
  · rw [h4]; exact ⟨fun _ => Iff.rfl, fun _ => Iff.rfl⟩
  · have hq : tget name e.store.qlist ≠ none := by rw [h5]; simp
    have hf : tget file' e.store.files ≠ none := by rw [h7]; simp
    rcases h8 with ⟨_, h8⟩ | ⟨_, _, _, h8⟩ <;> rw [h8]
    · exact ⟨fun _ => Iff.rfl, fun n => tget_tput_none_iff hf⟩
    · exact ⟨fun n => tget_tput_none_iff hq, fun n => tget_tput_none_iff hf⟩

/-- The dequeue theorem on the queue `q` emptied by one put and one get. -/
theorem C4_get_absent_or_empty_witness :
    bdb_get ⟨2, 1024, 131072⟩ no_faults
        (bdb_get ⟨2, 1024, 131072⟩ no_faults
          (bdb_put ⟨2, 1024, 131072⟩ no_faults fresh "q".toList "A".toList).2 "q".toList).2
        "q".toList =
      (none, (bdb_get ⟨2, 1024, 131072⟩ no_faults
          (bdb_put ⟨2, 1024, 131072⟩ no_faults fresh "q".toList "A".toList).2 "q".toList).2) :=
  (C4_get_absent_or_empty ⟨2, 1024, 131072⟩ no_faults
      (bdb_get ⟨2, 1024, 131072⟩ no_faults
        (bdb_put ⟨2, 1024, 131072⟩ no_faults fresh "q".toList "A".toList).2 "q".toList).2
      "q".toList).1
    (Or.inr (Or.inr ⟨1, 0, "q".toList, by decide, by decide, Or.inr (by decide)⟩))

/-- C5: delete. For every state, `delete_queue_db` without faults returns 0
when the name has a catalog entry and every substrate step succeeds (the
stored handle is open, the file of that name exists, and no other handle is
open on it, so that `dbremove` returns); afterwards the catalog has no entry
and no file of that name, every other entry and file is as before, and
`bdb_get` on the name returns `NULL`. Under any faults it returns 1 and leaves
the environment as it was when the name has no catalog entry, and whenever it
returns, it returns 0 or 1. -/
theorem C5_delete (f : Faults) (e : Env) (name : Key) :
    (∀ h sz file recs, tget name e.store.qlist = some ⟨some h, sz⟩ →
        tget h e.handles = some file → tget (cstr name) e.store.files = some recs →
        (∀ p ∈ tdel h e.handles, p.2 ≠ cstr name) →
        ∃ e1, delete_queue_db no_faults e name = some (0, e1) ∧
          tget name e1.store.qlist = none ∧
          tget (cstr name) e1.store.files = none ∧
          (∀ m, m ≠ name → tget m e1.store.qlist = tget m e.store.qlist) ∧
          (∀ g, g ≠ cstr name → tget g e1.store.files = tget g e.store.files) ∧
          (∀ cfg f1, (bdb_get cfg f1 e1 name).1 = none)) ∧
    (tget name e.store.qlist = none → delete_queue_db f e name = some (1, e)) ∧
    (∀ r, delete_queue_db f e name = some r → r.1 = 0 ∨ r.1 = 1) := by
  refine ⟨?_, ?_, ?_⟩
  · intro h sz file recs hq hh hf hno
    have hany : (tdel h e.handles).any (fun p => decide (p.2 = cstr name)) = false := by
      rw [List.any_eq_false]
      intro p hp
      simpa using hno p hp
    have hrem : DB_ENV_dbremove 0
        { store := e.store, handles := tdel h e.handles, next := e.next } (cstr name) =
        some (0, { store := { qlist := e.store.qlist, files := tdel (cstr name) e.store.files },
                   handles := tdel h e.handles, next := e.next }) := by
      simp [DB_ENV_dbremove, hf, hany]
    have hres : delete_queue_db no_faults e name =
        some (0, { store := { qlist := tdel name e.store.qlist,
                              files := tdel (cstr name) e.store.files },
                   handles := tdel h e.handles, next := e.next }) := by
      simp [delete_queue_db, no_faults, get_queue_db_handle, DB_get, hq, DB_close_ret, hh,
        hrem, DB_close, DB_del]
    refine ⟨_, hres, tget_tdel_same _ _, tget_tdel_same _ _, fun m hm => tget_tdel_ne hm _,
      fun g hg => tget_tdel_ne hg _, ?_⟩
    intro cfg f1
    rw [bdb_get_null_of cfg f1 _ name (Or.inl (tget_tdel_same _ _))]
  · intro h
    by_cases a1 : f Step.txn_begin = 0
    swap
    · simp [delete_queue_db, a1]
    by_cases a3 : f Step.lookup_get = 0
    swap
    · by_cases a3n : f Step.lookup_get = DB_NOTFOUND
      · simp [delete_queue_db, a1, gqh_notfound a3n, txn_abort_self]
      · simp [delete_queue_db, a1, gqh_error a3 a3n, txn_abort_self]
    · simp [delete_queue_db, a1, gqh_absent a3 h, txn_abort_self]
  · intro r hr
    rcases delete_queue_db_cases f e name with ⟨h, _⟩ | ⟨e1, h, _⟩ |
      ⟨_, _, _, _, _, _, _, _, _, _, _, _, _, _, h⟩
    · rw [h] at hr; exact absurd hr (by simp)
    · rw [h] at hr
      simp only [Option.some.injEq] at hr
      subst hr
      exact Or.inr rfl
    · rw [h] at hr
      simp only [Option.some.injEq] at hr
      subst hr
      exact Or.inl rfl

/-- The delete theorem on the queue `q` after one put. -/
theorem C5_delete_witness :
    (delete_queue_db no_faults
        (bdb_put ⟨2, 1024, 131072⟩ no_faults fresh "q".toList "A".toList).2 "q".toList).map
        (fun r => (r.1, tget "q".toList r.2.store.qlist, tget "q".toList r.2.store.files)) =
      some (0, none, none) :=
  match (C5_delete no_faults
      (bdb_put ⟨2, 1024, 131072⟩ no_faults fresh "q".toList "A".toList).2 "q".toList).1
      1 1 "q".toList ["A".toList] (by decide) (by decide) (by decide) (by decide) with
  | ⟨_, h1, h2, h3, _⟩ => by
    rw [h1]
    exact congrArg some (Prod.ext rfl (Prod.ext h2 h3))

/-- C6, counterexample: one queue `a` of length 1; the listing with its NUL
takes 14 bytes, and with `buf_size = 14` only `END` is written. -/
theorem C6_counterexample :
    (spec_lines (bdb_put ⟨2, 1024, 131072⟩ no_faults fresh "a".toList "x".toList).2.store.qlist
        ++ "END".toList).length + 1 ≤ 14 ∧
    print_queue_db_list no_faults
        (bdb_put ⟨2, 1024, 131072⟩ no_faults fresh "a".toList "x".toList).2 14 =
      (0, "END".toList) ∧
    spec_lines (bdb_put ⟨2, 1024, 131072⟩ no_faults fresh "a".toList "x".toList).2.store.qlist
        ++ "END".toList = "STAT a 1\r\nEND".toList := by
  decide

/-- C6, amended: for every catalog whose names are NUL-free and at most 511
bytes long and whose stored lengths are in the range of `int`, and every
`buf_size` below `2 ^ 31` that is at least the length of all the `STAT` lines
plus 5, `print_queue_db_list` without faults returns 0 and writes exactly the
lines `STAT <name> <length>` CR LF in catalog order followed by `END`; queues
`a`, `b`, `c` of lengths 1, 2, 3 and 128 bytes give `STAT a 1`, `STAT b 2`,
`STAT c 3`, `END`. -/
theorem C6_enumeration (e : Env) (buf_size : Nat)
    (hn : ∀ p ∈ e.store.qlist, NoNul p.1 ∧ p.1.length ≤ 511 ∧
      -2 ^ 31 ≤ p.2.queue_size ∧ p.2.queue_size < 2 ^ 31)
    (hb : (spec_lines e.store.qlist).length + 5 ≤ buf_size) (hmax : buf_size < 2 ^ 31) :
    print_queue_db_list no_faults e buf_size =
      (0, spec_lines e.store.qlist ++ "END".toList) ∧
    print_queue_db_list no_faults
        (run ⟨5, 1024, 131072⟩ fresh
          [Call.put no_faults "a".toList "x".toList, Call.put no_faults "b".toList "x".toList,
           Call.put no_faults "b".toList "y".toList, Call.put no_faults "c".toList "x".toList,
           Call.put no_faults "c".toList "y".toList, Call.put no_faults "c".toList "z".toList])
        128 =
      (0, "STAT a 1\r\nSTAT b 2\r\nSTAT c 3\r\nEND".toList) := by
  refine ⟨?_, by decide⟩
  have hrem : to_int (to_size_t ((buf_size : Int) - 5)) = (buf_size : Int) - 5 := by
    have h5 : (0 : Int) ≤ (buf_size : Int) - 5 := by omega
    have : ((to_size_t ((buf_size : Int) - 5) : Nat) : Int) = (buf_size : Int) - 5 :=
      to_size_t_of_nonneg h5 (by omega)
    rw [this]
    unfold to_int
    have h1 : (0 : Int) ≤ (buf_size : Int) - 5 + 2 ^ 31 := by omega
    have h2 : (buf_size : Int) - 5 + 2 ^ 31 < 2 ^ 32 := by omega
    rw [Int.emod_eq_of_lt h1 h2]
    omega
  have hloop := print_loop_all e.store.qlist (List.replicate 512 NUL) ((buf_size : Int) - 5) []
    hn (List.length_replicate _ _) (by omega) (by omega)
  unfold print_queue_db_list
  simp only [hrem, hloop, no_faults]
  simp

/-- The enumeration theorem for one queue `a` of length 1 and 15 bytes. -/
theorem C6_enumeration_witness :
    print_queue_db_list no_faults
        (bdb_put ⟨2, 1024, 131072⟩ no_faults fresh "a".toList "x".toList).2 15 =
      (0, spec_lines (bdb_put ⟨2, 1024, 131072⟩ no_faults fresh "a".toList "x".toList).2.store.qlist
        ++ "END".toList) :=
  (C6_enumeration (bdb_put ⟨2, 1024, 131072⟩ no_faults fresh "a".toList "x".toList).2 15
    (by decide) (by decide) (by decide)).1

/-- C7, the code at a failing input: the queue `q` holds three records and has
length 3; after a restart and a successful `bdb_qlist_db_open` the file still
holds the three records but the entry's length is 0, and the enumeration
prints `STAT q 0`. -/
theorem C7_restart_resets_lengths :
    tget "q".toList (run ⟨3, 1024, 131072⟩ fresh
        [Call.put no_faults "q".toList "A".toList, Call.put no_faults "q".toList "B".toList,
         Call.put no_faults "q".toList "C".toList]).store.qlist = some ⟨some 1, 3⟩ ∧
    (bdb_qlist_db_open ⟨3, 1024, 131072⟩ no_faults [] []
        (restart (run ⟨3, 1024, 131072⟩ fresh
          [Call.put no_faults "q".toList "A".toList, Call.put no_faults "q".toList "B".toList,
           Call.put no_faults "q".toList "C".toList]))).map
        (fun e => (tget "q".toList e.store.qlist, tget "q".toList e.store.files,
          print_queue_db_list no_faults e 128)) =
      some (some ⟨some 1, 0⟩, some ["A".toList, "B".toList, "C".toList],
        (0, "STAT q 0\r\nEND".toList)) := by
  decide

/-- C8, the code at a failing input: the catalog holds `ab` and `b`; after a
restart and a successful `bdb_qlist_db_open` the handle stored for `b` is bound
to a file `bb`, which the reopen created empty, and `bdb_get` on `b` returns
`NULL` although the file `b` still holds the record `Y`. -/
theorem C8_reopen_wrong_file :
    (bdb_qlist_db_open ⟨0, 1024, 131072⟩ no_faults [] []
        (restart (run ⟨0, 1024, 131072⟩ fresh
          [Call.put no_faults "ab".toList "X".toList,
           Call.put no_faults "b".toList "Y".toList]))).map
        (fun e => (tget "b".toList e.store.qlist, e.handles)) =
      some (some ⟨some 2, 0⟩, [(2, "bb".toList), (1, "ab".toList)]) ∧
    (bdb_qlist_db_open ⟨0, 1024, 131072⟩ no_faults [] []
        (restart (run ⟨0, 1024, 131072⟩ fresh
          [Call.put no_faults "ab".toList "X".toList,
           Call.put no_faults "b".toList "Y".toList]))).map
        (fun e => (tget "bb".toList e.store.files, tget "b".toList e.store.files)) =
      some (some [], some ["Y".toList]) ∧
    (bdb_qlist_db_open ⟨0, 1024, 131072⟩ no_faults [] []
        (restart (run ⟨0, 1024, 131072⟩ fresh
          [Call.put no_faults "ab".toList "X".toList,
           Call.put no_faults "b".toList "Y".toList]))).map
        (fun e => (bdb_get ⟨0, 1024, 131072⟩ no_faults e "b".toList).1) =
      some none := by
  decide

/-- C9, the code at a failing input: cap 2 and records of 1024 bytes. A
`bdb_put` of a 1025-byte item on the fresh environment returns 0; the queue
file `q` then holds no record while the entry `q` has length 1, and a
`bdb_get` on `q` returns `NULL` and leaves the length at 1. -/
theorem C9_oversized_put_counted :
    (bdb_put ⟨2, 1024, 131072⟩ no_faults fresh "q".toList (List.replicate 1025 'x')).1 = 0 ∧
    tget "q".toList (bdb_put ⟨2, 1024, 131072⟩ no_faults fresh "q".toList
        (List.replicate 1025 'x')).2.store.qlist = some ⟨some 1, 1⟩ ∧
    tget "q".toList (bdb_put ⟨2, 1024, 131072⟩ no_faults fresh "q".toList
        (List.replicate 1025 'x')).2.store.files = some [] ∧
    bdb_get ⟨2, 1024, 131072⟩ no_faults
        (bdb_put ⟨2, 1024, 131072⟩ no_faults fresh "q".toList (List.replicate 1025 'x')).2
        "q".toList =
      (none, (bdb_put ⟨2, 1024, 131072⟩ no_faults fresh "q".toList
        (List.replicate 1025 'x')).2) := by
  decide

/-- C10, the code at a failing input: one queue `a` of stored length 100 and
`buf_size = 15`; the line passes the check on `remains` and 16 bytes
(`STAT a 100` CR LF `END` NUL) are written. With `buf_size = 0` and one queue
of length 1, 14 bytes are written. -/
theorem C10_buffer_overrun :
    print_queue_db_list no_faults
        { store := { qlist := [("a".toList, ⟨some 1, 100⟩)],
                     files := [("a".toList, List.replicate 100 "x".toList)] },
          handles := [(1, "a".toList)], next := 2 } 15 =
      (0, "STAT a 100\r\nEND".toList) ∧
    15 < ("STAT a 100\r\nEND".toList).length + 1 ∧
    print_queue_db_list no_faults
        (bdb_put ⟨2, 1024, 131072⟩ no_faults fresh "a".toList "x".toList).2 0 =
      (0, "STAT a 1\r\nEND".toList) := by
  decide

/-- C11, the code at a failing input: after `put("q","A")` a `delete_queue_db`
on `q` whose `dbremove`, catalog delete or commit fails returns 1 and leaves
the entry `q` and its file in place, but the handle stored in the entry is no
longer open (it was closed before the transaction was aborted), and a later
`bdb_get` on `q` returns `NULL` although the file holds `A`. -/
theorem C11_failed_delete_closes_handle :
    trace ⟨2, 1024, 131072⟩ fresh
        [Call.put no_faults "q".toList "A".toList,
         Call.del (fun s => if s = Step.dbremove then 5 else 0) "q".toList,
         Call.get no_faults "q".toList] =
      [Out.code 0, Out.code 1, Out.got none] ∧
    tget "q".toList (run ⟨2, 1024, 131072⟩ fresh
        [Call.put no_faults "q".toList "A".toList,
         Call.del (fun s => if s = Step.dbremove then 5 else 0) "q".toList]).store.qlist =
      some ⟨some 1, 1⟩ ∧
    tget "q".toList (run ⟨2, 1024, 131072⟩ fresh
        [Call.put no_faults "q".toList "A".toList,
         Call.del (fun s => if s = Step.dbremove then 5 else 0) "q".toList]).store.files =
      some ["A".toList] ∧
    tget 1 (run ⟨2, 1024, 131072⟩ fresh
        [Call.put no_faults "q".toList "A".toList,
         Call.del (fun s => if s = Step.dbremove then 5 else 0) "q".toList]).handles = none ∧
    tget 1 (run ⟨2, 1024, 131072⟩ fresh
        [Call.put no_faults "q".toList "A".toList,
         Call.del (fun s => if s = Step.qlist_del then 5 else 0) "q".toList]).handles = none ∧
    tget 1 (run ⟨2, 1024, 131072⟩ fresh
        [Call.put no_faults "q".toList "A".toList,
         Call.del (fun s => if s = Step.txn_commit then 5 else 0) "q".toList]).handles = none := by
  decide

/-- C12: the lookup sentinel. For every catalog, name and forced result of
the catalog get: when the get returns 0 with a record (the name is present),
`get_queue_db_handle` returns 0 with that record; when the get reports
not-found (the name is absent, or not-found is forced), it returns 0 with a
NULL handle and length 0; for every other result of the get it returns that
result, which is not 0. -/
theorem C12_lookup_sentinel (f : Faults) (e : Env) (name : Key) :
    (∀ r, f Step.lookup_get = 0 → tget name e.store.qlist = some r →
      get_queue_db_handle f e name = (0, r)) ∧
    (∀ r, DB_get (f Step.lookup_get) e.store.qlist name = (0, some r) →
      get_queue_db_handle f e name = (0, r)) ∧
    ((DB_get (f Step.lookup_get) e.store.qlist name).1 = DB_NOTFOUND →
      get_queue_db_handle f e name = (0, ⟨none, 0⟩)) ∧
    ((DB_get (f Step.lookup_get) e.store.qlist name).1 ≠ 0 →
      (DB_get (f Step.lookup_get) e.store.qlist name).1 ≠ DB_NOTFOUND →
      (get_queue_db_handle f e name).1 = (DB_get (f Step.lookup_get) e.store.qlist name).1 ∧
      (get_queue_db_handle f e name).1 ≠ 0) := by
  refine ⟨fun r hf hq => gqh_found hf hq, ?_, ?_, ?_⟩
  · intro r h
    simp [get_queue_db_handle, h]
  · intro h
    obtain ⟨ret, data, hd⟩ : ∃ ret data, DB_get (f Step.lookup_get) e.store.qlist name =
        (ret, data) := ⟨_, _, rfl⟩
    rw [hd] at h
    simp only at h
    subst h
    simp [get_queue_db_handle, hd, DB_NOTFOUND]
  · intro h0 hn
    obtain ⟨ret, data, hd⟩ : ∃ ret data, DB_get (f Step.lookup_get) e.store.qlist name =
        (ret, data) := ⟨_, _, rfl⟩
    rw [hd] at h0 hn ⊢
    simp only at h0 hn ⊢
    simp [get_queue_db_handle, hd, h0, hn]

/-- The lookup theorem on the queue `q` after one put under a cap. -/
theorem C12_lookup_sentinel_witness :
    get_queue_db_handle no_faults
        (bdb_put ⟨2, 1024, 131072⟩ no_faults fresh "q".toList "A".toList).2 "q".toList =
      (0, ⟨some 1, 1⟩) :=
  (C12_lookup_sentinel no_faults
    (bdb_put ⟨2, 1024, 131072⟩ no_faults fresh "q".toList "A".toList).2 "q".toList).1
    ⟨some 1, 1⟩ (by decide) (by decide)

/-- C13, counterexample: with the default settings and every call succeeding,
the environment `bdb_env_init` leaves has 10000, not 20000, as its maximum
number of active transactions. -/
theorem C13_counterexample :
    (bdb_env_init env_defaults env_no_faults
        ⟨false, false, false, 0, false, 1000, 1000, 1000, 100, 0, false⟩).map
      (fun envp => (envp.lk_max_lockers, envp.lk_max_locks, envp.lk_max_objects, envp.tx_max)) =
      some (20000, 20000, 20000, 10000) := by
  decide

/-- C13, amended: whenever `bdb_env_init` returns, the environment's maximum
lockers, locks and lock objects are each 20000 and its maximum of active
transactions is 10000 (the call `set_tx_max(envp, 10000)` follows
`set_tx_max(envp, 20000)`); and it returns when every checked call succeeds. -/
theorem C13_env_caps (s : EnvSettings) (f : EnvFaults) (created : DB_ENV) :
    (∀ envp, bdb_env_init s f created = some envp →
      envp.lk_max_lockers = 20000 ∧ envp.lk_max_locks = 20000 ∧
        envp.lk_max_objects = 20000 ∧ envp.tx_max = 10000) ∧
    (bdb_env_init s env_no_faults created).isSome = true :=
  ⟨fun envp h => bdb_env_init_caps s f created envp h, bdb_env_init_returns s created⟩

/-- The caps theorem at the default settings. -/
theorem C13_env_caps_witness :
    bdb_env_init env_defaults env_no_faults
        ⟨false, false, false, 0, false, 1000, 1000, 1000, 100, 0, false⟩ =
      some { verb_fileops_all := false, verb_deadlock := false, verb_recovery := false,
             cachesize := 67108864, txn_nosync := false, lk_max_lockers := 20000,
             lk_max_locks := 20000, lk_max_objects := 20000, tx_max := 10000,
             lg_bsize := 32768, is_open := true } ∧
    ({ verb_fileops_all := false, verb_deadlock := false, verb_recovery := false,
       cachesize := 67108864, txn_nosync := false, lk_max_lockers := 20000,
       lk_max_locks := 20000, lk_max_objects := 20000, tx_max := 10000, lg_bsize := 32768,
       is_open := true } : DB_ENV).tx_max = 10000 :=
  ⟨by decide,
   ((C13_env_caps env_defaults env_no_faults
      ⟨false, false, false, 0, false, 1000, 1000, 1000, 100, 0, false⟩).1
    { verb_fileops_all := false, verb_deadlock := false, verb_recovery := false,
      cachesize := 67108864, txn_nosync := false, lk_max_lockers := 20000,
      lk_max_locks := 20000, lk_max_objects := 20000, tx_max := 10000, lg_bsize := 32768,
      is_open := true } (by decide)).2.2.2⟩

/-- C14: length maintenance. For every state the code reaches (no catalog
entry holds a NULL handle), every call and every fault (not-found reported by
the catalog lookup only for absent keys). With no cap: `bdb_get` leaves the
catalog as it is; `bdb_put` leaves every entry the catalog had as it was; a
queue that `bdb_put` creates has length 0 after the call; and a fault-free
`bdb_put` returns 0 whatever the stored length, on a queue whose handle is
open on an existing file as on a name without entry. With a cap: a successful
`bdb_put` leaves the named entry with its length plus 1 (with length 1 when it
created the entry), a successful `bdb_get` leaves the named entry with its
length minus 1, and every other entry is as before. -/
theorem C14_length_maintenance (cfg : Settings) (f : Faults) (e : Env) (key : Key) (it : item)
    (hs : NoNullHandles e) (hn : f Step.lookup_get ≠ DB_NOTFOUND) :
    (cfg.max_queue_size = 0 →
      (bdb_get cfg f e key).2.store.qlist = e.store.qlist ∧
      (∀ m r, tget m e.store.qlist = some r →
        tget m (bdb_put cfg f e key it).2.store.qlist = some r) ∧
      (tget key e.store.qlist = none → (bdb_put cfg f e key it).1 = 0 →
        ∃ h, tget key (bdb_put cfg f e key it).2.store.qlist = some ⟨some h, 0⟩) ∧
      (∀ h sz file recs, tget key e.store.qlist = some ⟨some h, sz⟩ →
        tget h e.handles = some file → tget file e.store.files = some recs →
        (bdb_put cfg no_faults e key it).1 = 0) ∧
      (tget key e.store.qlist = none → (bdb_put cfg no_faults e key it).1 = 0)) ∧
    (0 < cfg.max_queue_size →
      ((bdb_put cfg f e key it).1 = 0 →
        (∀ r, tget key e.store.qlist = some r →
          tget key (bdb_put cfg f e key it).2.store.qlist =
            some ⟨r.queue_dbp, r.queue_size + 1⟩) ∧
        (tget key e.store.qlist = none →
          ∃ h, tget key (bdb_put cfg f e key it).2.store.qlist = some ⟨some h, 1⟩) ∧
        (∀ m, m ≠ key →
          tget m (bdb_put cfg f e key it).2.store.qlist = tget m e.store.qlist)) ∧
      (∀ r, (bdb_get cfg f e key).1 = some r →
        ∃ q, tget key e.store.qlist = some q ∧
          tget key (bdb_get cfg f e key).2.store.qlist =
            some ⟨q.queue_dbp, q.queue_size - 1⟩ ∧
          ∀ m, m ≠ key →
            tget m (bdb_get cfg f e key).2.store.qlist = tget m e.store.qlist)) := by
  have hshape := put_qlist_shape cfg f e key it hn
  have hnull : ∀ sz, tget key e.store.qlist ≠ some ⟨none, sz⟩ := by
    intro sz hq
    exact hs _ (mem_of_tget hq) rfl
  have habs : (tget key e.store.qlist = none ∨ ∃ sz, tget key e.store.qlist = some ⟨none, sz⟩) →
      tget key e.store.qlist = none := by
    intro h
    rcases h with h | ⟨sz, h⟩
    · exact h
    · exact absurd h (hnull sz)
  refine ⟨fun c0 => ⟨?_, ?_, ?_, ?_, ?_⟩, fun cpos => ⟨?_, ?_⟩⟩
  · rcases bdb_get_cases cfg f e key with h | ⟨_, _, _, _, _, _, _, _, _, _, _, _, _, h⟩
    · rw [h]
    · rcases h with ⟨_, h⟩ | ⟨c1, _⟩
      · rw [h]
      · exact absurd c0 c1
  · intro m r hm
    rcases hshape with ⟨_, h⟩ | ⟨_, _, _, _, h⟩ | ⟨_, ha, h⟩
    · rw [h]; exact hm
    · rw [h, if_pos c0]; exact hm
    · rw [h, if_pos c0]
      have hne : m ≠ key := by
        intro hmk
        rw [hmk, habs ha] at hm
        exact absurd hm (by simp)
      rw [tget_tput_ne hne]
      exact hm
  · intro ha hret
    rcases hshape with ⟨h1, _⟩ | ⟨_, h1, sz, hq, _⟩ | ⟨_, _, h⟩
    · rw [h1] at hret; simp at hret
    · rw [ha] at hq; simp at hq
    · rw [h, if_pos c0]
      exact ⟨e.next, tget_tput_same _ _ _⟩
  · intro h sz file recs hq hh hf
    exact put_ret_open c0 hq hh hf
  · intro ha
    exact put_ret_new c0 ha
  · intro hret
    have c1 : ¬ cfg.max_queue_size = 0 := Int.ne_of_gt cpos
    rcases hshape with ⟨h1, _⟩ | ⟨_, h1, sz1, hq1, h⟩ | ⟨_, ha, h⟩
    · rw [h1] at hret; simp at hret
    · rw [h, if_neg c1]
      refine ⟨?_, ?_, fun m hm => tget_tput_ne hm _ _⟩
      · intro r hq2
        rw [hq1] at hq2
        simp only [Option.some.injEq] at hq2
        subst hq2
        exact tget_tput_same _ _ _
      · intro ha
        rw [ha] at hq1; simp at hq1
    · rw [h, if_neg c1]
      refine ⟨?_, fun _ => ⟨e.next, tget_tput_same _ _ _⟩, ?_⟩
      · intro r hq2
        rw [habs ha] at hq2; simp at hq2
      · intro m hm
        rw [tget_tput_ne hm, tget_tput_ne hm]
  · intro r hr
    have c1 : ¬ cfg.max_queue_size = 0 := Int.ne_of_gt cpos
    rcases bdb_get_cases cfg f e key with h | ⟨h1, sz, _, _, _, _, _, _, _, _, hq, _, _, h⟩
    · rw [h] at hr; simp at hr
    · rcases h with ⟨c0, _⟩ | ⟨_, _, _, h⟩
      · exact absurd c0 c1
      · rw [h]
        exact ⟨_, hq, tget_tput_same _ _ _, fun m hm => tget_tput_ne hm _ _⟩

/-- The length theorem at cap 2 for a second put on `q`: the length goes
from 1 to 2. -/
theorem C14_length_maintenance_witness :
    tget "q".toList (bdb_put ⟨2, 1024, 131072⟩ no_faults
        (bdb_put ⟨2, 1024, 131072⟩ no_faults fresh "q".toList "A".toList).2
        "q".toList "B".toList).2.store.qlist = some ⟨some 1, 1 + 1⟩ :=
  ((((C14_length_maintenance ⟨2, 1024, 131072⟩ no_faults
      (bdb_put ⟨2, 1024, 131072⟩ no_faults fresh "q".toList "A".toList).2
      "q".toList "B".toList (by decide) (by decide)).2 (by decide)).1 (by decide)).1
    ⟨some 1, 1⟩ (by decide))

end MemcacheQ
